import Mathlib

set_option maxRecDepth 4000

/-! Decimal context arithmetic: Python's `decimal` module with the default context
(28 significant digits, `ROUND_HALF_EVEN`), modelled over `ℚ`. -/

/-- Number of decimal digits of a natural number (`0` for `0`). -/
def ndigits (n : ℕ) : ℕ :=
  if n = 0 then 0 else Nat.log 10 n + 1

theorem ndigits_spec (n : ℕ) (hn : n ≠ 0) :
    1 ≤ ndigits n ∧ 10 ^ (ndigits n - 1) ≤ n ∧ n < 10 ^ ndigits n := by
  rw [ndigits, if_neg hn]
  refine ⟨by omega, ?_, ?_⟩
  · simpa using Nat.pow_log_le_self 10 hn
  · exact Nat.lt_pow_succ_log_self (by norm_num) n

/-- Adjusted exponent of a nonzero rational `q`: the unique `e` with
`10 ^ e ≤ |q| < 10 ^ (e + 1)` (the exponent of the leading significant digit). -/
def decAdjExp (q : ℚ) : ℤ :=
  let a := q.num.natAbs
  let b := q.den
  let e0 : ℤ := (ndigits a : ℤ) - (ndigits b : ℤ)
  if 10 ^ e0.toNat * b ≤ a * 10 ^ (-e0).toNat then e0 else e0 - 1

theorem zpow_ten_eq_div (e : ℤ) :
    (10 : ℚ) ^ e = ((10 ^ e.toNat : ℕ) : ℚ) / ((10 ^ (-e).toNat : ℕ) : ℚ) := by
  rcases le_or_lt 0 e with he | he
  · obtain ⟨m, hm⟩ : ∃ m : ℕ, e = (m : ℤ) := ⟨e.toNat, by omega⟩
    subst hm
    have h0 : (-(m : ℤ)).toNat = 0 := Int.toNat_eq_zero.mpr (by omega)
    have h1 : ((m : ℤ)).toNat = m := by omega
    rw [h0, h1, zpow_natCast]
    push_cast
    simp
  · obtain ⟨m, hm⟩ : ∃ m : ℕ, e = -(m : ℤ) := ⟨(-e).toNat, by omega⟩
    subst hm
    have h0 : (-(m : ℤ)).toNat = 0 := Int.toNat_eq_zero.mpr (by omega)
    have h1 : (-(-(m : ℤ))).toNat = m := by omega
    rw [h0, h1, zpow_neg, zpow_natCast]
    push_cast
    simp [one_div]

theorem abs_eq_natAbs_div (q : ℚ) :
    |q| = ((q.num.natAbs : ℕ) : ℚ) / ((q.den : ℕ) : ℚ) := by
  have h := Rat.num_div_den q
  have hden : (0 : ℚ) < (q.den : ℚ) := by exact_mod_cast q.den_pos
  calc |q| = |(q.num : ℚ) / (q.den : ℚ)| := by rw [h]
  _ = |(q.num : ℚ)| / |(q.den : ℚ)| := abs_div _ _
  _ = ((q.num.natAbs : ℕ) : ℚ) / ((q.den : ℕ) : ℚ) := by
      rw [abs_of_pos hden]
      congr 1
      rw [Int.cast_natAbs, Int.cast_abs]

theorem decAdjExp_cond_iff (q : ℚ) (e : ℤ) :
    10 ^ e.toNat * q.den ≤ q.num.natAbs * 10 ^ (-e).toNat ↔ (10 : ℚ) ^ e ≤ |q| := by
  rw [abs_eq_natAbs_div, zpow_ten_eq_div]
  have h1 : (0 : ℚ) < ((10 ^ (-e).toNat : ℕ) : ℚ) := by positivity
  have h2 : (0 : ℚ) < ((q.den : ℕ) : ℚ) := by exact_mod_cast q.den_pos
  rw [div_le_div_iff₀ h1 h2]
  constructor <;> intro h <;> exact_mod_cast h

theorem decAdjExp_le (q : ℚ) (hq : q ≠ 0) : (10 : ℚ) ^ decAdjExp q ≤ |q| := by
  have ha : q.num.natAbs ≠ 0 := Int.natAbs_ne_zero.mpr (Rat.num_ne_zero.mpr hq)
  have hb : q.den ≠ 0 := q.den_nz
  obtain ⟨ha1, ha2, ha3⟩ := ndigits_spec _ ha
  obtain ⟨hb1, hb2, hb3⟩ := ndigits_spec _ hb
  simp only [decAdjExp]
  split_ifs with hcond
  · exact (decAdjExp_cond_iff q _).mp hcond
  · rw [abs_eq_natAbs_div]
    have hA : ((10 ^ (ndigits q.num.natAbs - 1) : ℕ) : ℚ) ≤ (q.num.natAbs : ℚ) := by
      exact_mod_cast ha2
    have hB : ((q.den : ℕ) : ℚ) ≤ ((10 ^ ndigits q.den : ℕ) : ℚ) := by
      exact_mod_cast le_of_lt hb3
    have hBpos : (0 : ℚ) < ((q.den : ℕ) : ℚ) := by exact_mod_cast Nat.pos_of_ne_zero hb
    have hdiv : ((10 ^ (ndigits q.num.natAbs - 1) : ℕ) : ℚ) / ((10 ^ ndigits q.den : ℕ) : ℚ)
        ≤ (q.num.natAbs : ℚ) / (q.den : ℚ) :=
      div_le_div₀ (by positivity) hA hBpos hB
    refine le_trans (le_of_eq ?_) hdiv
    push_cast
    rw [← zpow_natCast (10 : ℚ) (ndigits q.num.natAbs - 1), ← zpow_natCast (10 : ℚ) (ndigits q.den),
      ← zpow_sub₀ (by norm_num : (10 : ℚ) ≠ 0)]
    congr 1
    omega

theorem decAdjExp_lt (q : ℚ) (hq : q ≠ 0) : |q| < (10 : ℚ) ^ (decAdjExp q + 1) := by
  have ha : q.num.natAbs ≠ 0 := Int.natAbs_ne_zero.mpr (Rat.num_ne_zero.mpr hq)
  have hb : q.den ≠ 0 := q.den_nz
  obtain ⟨ha1, ha2, ha3⟩ := ndigits_spec _ ha
  obtain ⟨hb1, hb2, hb3⟩ := ndigits_spec _ hb
  simp only [decAdjExp]
  split_ifs with hcond
  · rw [abs_eq_natAbs_div]
    have hA : (q.num.natAbs : ℚ) < ((10 ^ ndigits q.num.natAbs : ℕ) : ℚ) := by
      exact_mod_cast ha3
    have hB : ((10 ^ (ndigits q.den - 1) : ℕ) : ℚ) ≤ ((q.den : ℕ) : ℚ) := by
      exact_mod_cast hb2
    have hdiv : (q.num.natAbs : ℚ) / (q.den : ℚ)
        < ((10 ^ ndigits q.num.natAbs : ℕ) : ℚ) / ((10 ^ (ndigits q.den - 1) : ℕ) : ℚ) :=
      div_lt_div₀ hA hB (by positivity) (by positivity)
    refine lt_of_lt_of_le hdiv (le_of_eq ?_)
    push_cast
    rw [← zpow_natCast (10 : ℚ) (ndigits q.num.natAbs), ← zpow_natCast (10 : ℚ) (ndigits q.den - 1),
      ← zpow_sub₀ (by norm_num : (10 : ℚ) ≠ 0)]
    congr 1
    omega
  · have h := (decAdjExp_cond_iff q ((ndigits q.num.natAbs : ℤ) - (ndigits q.den : ℤ))).not.mp hcond
    push_neg at h
    refine lt_of_lt_of_le h (le_of_eq ?_)
    congr 1
    omega

theorem decAdjExp_eq_of (q : ℚ) (e : ℤ) (hq : q ≠ 0)
    (h1 : (10 : ℚ) ^ e ≤ |q|) (h2 : |q| < (10 : ℚ) ^ (e + 1)) : decAdjExp q = e := by
  have hA := decAdjExp_le q hq
  have hB := decAdjExp_lt q hq
  by_contra hc
  rcases lt_or_gt_of_ne hc with hlt | hgt
  · have h3 : (10 : ℚ) ^ (decAdjExp q + 1) ≤ (10 : ℚ) ^ e :=
      zpow_le_zpow_right₀ (by norm_num) (by omega)
    linarith
  · have h3 : (10 : ℚ) ^ (e + 1) ≤ (10 : ℚ) ^ decAdjExp q :=
      zpow_le_zpow_right₀ (by norm_num) (by omega)
    linarith
/-- Round a rational to the nearest integer, ties to even (`ROUND_HALF_EVEN`). -/
def rndHE (q : ℚ) : ℤ :=
  let n : ℤ := Int.ediv q.num q.den
  let t : ℤ := 2 * (q.num - n * q.den)
  if t < (q.den : ℤ) then n
  else if (q.den : ℤ) < t then n + 1
  else if n % 2 = 0 then n else n + 1

theorem num_eq_mul_den (q : ℚ) : (q.num : ℚ) = q * (q.den : ℚ) := by
  have hden : ((q.den : ℚ)) ≠ 0 := by
    exact_mod_cast q.den_nz
  have h := Rat.num_div_den q
  rw [div_eq_iff hden] at h
  exact h

theorem ediv_num_den (q : ℚ) : Int.ediv q.num q.den = ⌊q⌋ := by
  have hbp : (0 : ℤ) < (q.den : ℤ) := by exact_mod_cast q.den_pos
  have hb : (q.den : ℤ) ≠ 0 := ne_of_gt hbp
  set k := Int.ediv q.num q.den with hkdef
  set r := Int.emod q.num q.den with hrdef
  have hdecomp : (q.den : ℤ) * k + r = q.num := Int.ediv_add_emod q.num q.den
  have hr0 : 0 ≤ r := Int.emod_nonneg q.num hb
  have hr1 : r < (q.den : ℤ) := Int.emod_lt_of_pos q.num hbp
  have hdq : (0 : ℚ) < (q.den : ℚ) := by exact_mod_cast q.den_pos
  have hnum : (q.num : ℚ) = q * (q.den : ℚ) := num_eq_mul_den q
  have hceq : ((q.den : ℚ)) * (k : ℚ) + (r : ℚ) = q * (q.den : ℚ) := by
    rw [← hnum]
    exact_mod_cast hdecomp
  have hc0 : (0 : ℚ) ≤ (r : ℚ) := by exact_mod_cast hr0
  have hc1 : (r : ℚ) < (q.den : ℚ) := by exact_mod_cast hr1
  symm
  rw [Int.floor_eq_iff]
  constructor
  · rw [← mul_le_mul_right hdq]
    linarith
  · rw [← mul_lt_mul_right hdq]
    linarith [hceq]

theorem sub_floor_mul_den (q : ℚ) (n : ℤ) :
    ((2 * (q.num - n * q.den) : ℤ) : ℚ) = 2 * (q - (n : ℚ)) * (q.den : ℚ) := by
  push_cast
  rw [num_eq_mul_den q]
  ring

theorem rndHE_of_lt (q : ℚ) (n : ℤ) (h1 : (n : ℚ) ≤ q) (h2 : q < (n : ℚ) + 1 / 2) :
    rndHE q = n := by
  have hfl : ⌊q⌋ = n := by
    rw [Int.floor_eq_iff]
    exact ⟨h1, by linarith⟩
  have hdq : (0 : ℚ) < (q.den : ℚ) := by exact_mod_cast q.den_pos
  have hediv : Int.ediv q.num q.den = n := (ediv_num_den q).trans hfl
  have ht : 2 * (q.num - n * q.den) < (q.den : ℤ) := by
    have key : ((2 * (q.num - n * q.den) : ℤ) : ℚ) < ((q.den : ℤ) : ℚ) := by
      rw [sub_floor_mul_den]
      push_cast
      nlinarith
    exact_mod_cast key
  simp only [rndHE, hediv]
  rw [if_pos ht]

theorem rndHE_of_gt (q : ℚ) (n : ℤ) (h1 : (n : ℚ) + 1 / 2 < q) (h2 : q ≤ (n : ℚ) + 1) :
    rndHE q = n + 1 := by
  have hdq : (0 : ℚ) < (q.den : ℚ) := by exact_mod_cast q.den_pos
  rcases eq_or_lt_of_le h2 with heq | hlt
  · -- q is exactly the integer n + 1
    have hq : q = ((n + 1 : ℤ) : ℚ) := by push_cast; linarith
    have hfl : ⌊q⌋ = n + 1 := by rw [hq, Int.floor_intCast]
    have hediv : Int.ediv q.num q.den = n + 1 := (ediv_num_den q).trans hfl
    have ht : 2 * (q.num - (n + 1) * q.den) < (q.den : ℤ) := by
      have key : ((2 * (q.num - (n + 1) * q.den) : ℤ) : ℚ) < ((q.den : ℤ) : ℚ) := by
        rw [sub_floor_mul_den]
        push_cast
        nlinarith [hq]
      exact_mod_cast key
    simp only [rndHE, hediv]
    rw [if_pos ht]
  · have hfl : ⌊q⌋ = n := by
      rw [Int.floor_eq_iff]
      exact ⟨by linarith, hlt⟩
    have hediv : Int.ediv q.num q.den = n := (ediv_num_den q).trans hfl
    have ht : (q.den : ℤ) < 2 * (q.num - n * q.den) := by
      have key : ((q.den : ℤ) : ℚ) < ((2 * (q.num - n * q.den) : ℤ) : ℚ) := by
        rw [sub_floor_mul_den]
        push_cast
        nlinarith
      exact_mod_cast key
    simp only [rndHE, hediv]
    rw [if_neg (by omega), if_pos ht]

theorem rndHE_tie (q : ℚ) (n : ℤ) (h : q = (n : ℚ) + 1 / 2) :
    rndHE q = if n % 2 = 0 then n else n + 1 := by
  have hdq : (0 : ℚ) < (q.den : ℚ) := by exact_mod_cast q.den_pos
  have hfl : ⌊q⌋ = n := by
    rw [Int.floor_eq_iff]
    constructor <;> [linarith; linarith]
  have hediv : Int.ediv q.num q.den = n := (ediv_num_den q).trans hfl
  have ht : 2 * (q.num - n * q.den) = (q.den : ℤ) := by
    have key : ((2 * (q.num - n * q.den) : ℤ) : ℚ) = ((q.den : ℤ) : ℚ) := by
      rw [sub_floor_mul_den]
      push_cast
      rw [h]
      ring
    exact_mod_cast key
  simp only [rndHE, hediv]
  rw [if_neg (by omega), if_neg (by omega)]

theorem rndHE_intCast (n : ℤ) : rndHE ((n : ℤ) : ℚ) = n :=
  rndHE_of_lt _ n (le_refl _) (by linarith)

theorem rndHE_nonneg (q : ℚ) (h : 0 ≤ q) : 0 ≤ rndHE q := by
  have hfl : (0 : ℤ) ≤ ⌊q⌋ := Int.floor_nonneg.mpr h
  have hediv : Int.ediv q.num q.den = ⌊q⌋ := ediv_num_den q
  simp only [rndHE, hediv]
  split_ifs <;> omega

/-- Round a nonzero rational to 28 significant decimal digits, ties to even:
the rounding applied by Python `decimal` arithmetic at default context precision. -/
def ctxRound (q : ℚ) : ℚ :=
  if q = 0 then 0
  else
    let s : ℤ := 27 - decAdjExp q
    ((rndHE (q * (10 : ℚ) ^ s) : ℤ) : ℚ) / (10 : ℚ) ^ s

theorem ctxRound_zero : ctxRound 0 = 0 := by
  rw [ctxRound, if_pos rfl]

theorem ctxRound_eval (q : ℚ) (e m : ℤ) (h0 : q ≠ 0)
    (hlow : (10 : ℚ) ^ e ≤ |q|) (hhigh : |q| < (10 : ℚ) ^ (e + 1))
    (hm : rndHE (q * (10 : ℚ) ^ (27 - e)) = m) :
    ctxRound q = (m : ℚ) / (10 : ℚ) ^ (27 - e) := by
  rw [ctxRound, if_neg h0]
  simp only [decAdjExp_eq_of q e h0 hlow hhigh, hm]

theorem ctxRound_eq_self (q : ℚ) (d : ℕ) (hden : (q * 10 ^ d).den = 1)
    (habs : |q| < (10 : ℚ) ^ ((28 : ℤ) - d)) : ctxRound q = q := by
  rcases eq_or_ne q 0 with rfl | h0
  · exact ctxRound_zero
  · have he := decAdjExp_le q h0
    have hse : decAdjExp q ≤ 27 - (d : ℤ) := by
      by_contra hc
      push_neg at hc
      have h3 : (10 : ℚ) ^ ((28 : ℤ) - d) ≤ (10 : ℚ) ^ decAdjExp q :=
        zpow_le_zpow_right₀ (by norm_num) (by omega)
      linarith
    rw [ctxRound, if_neg h0]
    show ((rndHE (q * (10 : ℚ) ^ (27 - decAdjExp q)) : ℤ) : ℚ) / (10 : ℚ) ^ (27 - decAdjExp q) = q
    have hk : q * 10 ^ (d : ℤ) = (((q * 10 ^ d).num : ℤ) : ℚ) := by
      have h4 := (Rat.den_eq_one_iff (q * 10 ^ d)).mp hden
      rw [h4, ← zpow_natCast (10 : ℚ) d]
    set s : ℤ := 27 - decAdjExp q with hs
    have hsd : (d : ℤ) ≤ s := by omega
    have harg : q * (10 : ℚ) ^ s = ((((q * 10 ^ d).num * 10 ^ (s - (d : ℤ)).toNat : ℤ)) : ℚ) := by
      have hsplit : (10 : ℚ) ^ s = (10 : ℚ) ^ (d : ℤ) * (10 : ℚ) ^ (s - (d : ℤ)) := by
        rw [← zpow_add₀ (by norm_num : (10 : ℚ) ≠ 0)]
        congr 1
        omega
      rw [hsplit, ← mul_assoc, hk]
      have h5 : (10 : ℚ) ^ (s - (d : ℤ)) = (10 : ℚ) ^ ((s - (d : ℤ)).toNat : ℤ) := by
        congr 1
        omega
      rw [h5, zpow_natCast]
      push_cast
      ring
    rw [harg, rndHE_intCast]
    rw [← harg]
    have h6 : (10 : ℚ) ^ s ≠ 0 := zpow_ne_zero s (by norm_num)
    field_simp

theorem ctxRound_nonneg (q : ℚ) (h : 0 ≤ q) : 0 ≤ ctxRound q := by
  rw [ctxRound]
  split_ifs with h0
  · exact le_refl 0
  · have hp : (0 : ℚ) < (10 : ℚ) ^ (27 - decAdjExp q) := by positivity
    have hr : 0 ≤ rndHE (q * (10 : ℚ) ^ (27 - decAdjExp q)) :=
      rndHE_nonneg _ (mul_nonneg h (le_of_lt hp))
    have : (0 : ℚ) ≤ ((rndHE (q * (10 : ℚ) ^ (27 - decAdjExp q)) : ℤ) : ℚ) := by
      exact_mod_cast hr
    positivity

/-- Context-rounded decimal operations (Python `Decimal` +, -, *, / and integer power
at the default 28-digit context). -/
def decAdd (x y : ℚ) : ℚ := ctxRound (x + y)

def decSub (x y : ℚ) : ℚ := ctxRound (x - y)

def decMul (x y : ℚ) : ℚ := ctxRound (x * y)

def decDiv (x y : ℚ) : ℚ := ctxRound (x / y)

/-- Integer power of a decimal, correctly rounded to context precision
(CPython's `_decimal` computes correctly rounded integral powers). -/
def decPow (x : ℚ) (n : ℤ) : ℚ := ctxRound (x ^ n)

/-- `Decimal.quantize(Decimal('0.01'))` under the default context: round the value to
2 decimal places, ties to even. -/
def quantize2 (q : ℚ) : ℚ := ((rndHE (q * 100) : ℤ) : ℚ) / 100

/-- Rounding half away from zero to the nearest integer. -/
def rndAway (q : ℚ) : ℤ := if 0 ≤ q then ⌊q + 1 / 2⌋ else -⌊-q + 1 / 2⌋

/-- Quantization to 2 decimal places with halves rounded away from zero. -/
def quantAway2 (q : ℚ) : ℚ := ((rndAway (q * 100) : ℤ) : ℚ) / 100
/-! Data model: the Django models of `api/models.py`, restricted to the fields that the
scoring, eligibility and issuance logic reads. Decimal columns are modelled by their
rational values; `approved_limit` is an `Option` to reflect the Python code's
explicit `is None` check. -/

structure CalDate where
  year : ℤ
  month : ℤ
  day : ℤ
deriving DecidableEq

def isLeap (y : ℤ) : Bool := (y % 4 == 0 && y % 100 != 0) || (y % 400 == 0)

def daysInMonth (y m : ℤ) : ℤ :=
  if m = 2 then (if isLeap y then 29 else 28)
  else if m = 4 ∨ m = 6 ∨ m = 9 ∨ m = 11 then 30
  else 31

/-- Month arithmetic of `dateutil.relativedelta`: shift by `n` months, clamping the
day of the month to the length of the target month. -/
def addMonths (d : CalDate) (n : ℤ) : CalDate :=
  let t := d.year * 12 + (d.month - 1) + n
  let y := Int.fdiv t 12
  let m := Int.emod t 12 + 1
  ⟨y, m, min d.day (daysInMonth y m)⟩

structure Customer where
  customer_id : ℕ
  first_name : String
  last_name : String
  phone_number : String
  monthly_salary : ℚ
  approved_limit : Option ℚ
  current_debt : ℚ
  age : ℤ
deriving DecidableEq

structure Loan where
  loan_id : ℕ
  loan_amount : ℚ
  tenure : ℤ
  interest_rate : ℚ
  monthly_repayment : ℚ
  emis_paid_on_time : ℤ
  start_date : CalDate
  end_date : CalDate
  loan_status : String
deriving DecidableEq

/-- `Loan.objects.filter(customer, loan_status)` with status `active`. -/
def activeLoans (loans : List Loan) : List Loan :=
  loans.filter (fun l => l.loan_status == "active")

/-- `LoanEligibilityCheckSerializer.calculate_credit_score` (api/serializers.py).
The SQL `Sum` aggregates are exact; a `None` aggregate over an empty set is
coalesced to `0` exactly as in the source. Python computes the on-time ratio of
criterion 1 in binary floating point; the two threshold comparisons are modelled
by the exact rational value. -/
def calculate_credit_score (customer : Customer) (loans : List Loan) (currentYear : ℤ) : ℤ :=
  let total_emis_paid : ℤ := (loans.map (fun l => l.emis_paid_on_time)).sum
  let total_tenure : ℤ := (loans.map (fun l => l.tenure)).sum
  -- Criteria 1: past loans paid on time (starting score 100)
  let score1 : ℤ :=
    if 0 < total_tenure then
      if ((total_emis_paid : ℚ) / (total_tenure : ℚ)) * 100 < 50 then 100 - 10
      else if ((total_emis_paid : ℚ) / (total_tenure : ℚ)) * 100 < 70 then 100 - 5
      else 100
    else 100
  -- Criteria 2: number of loans taken in the past
  let num_past_loans := loans.length
  let score2 : ℤ :=
    if 5 < num_past_loans then score1 - 10
    else if 2 < num_past_loans then score1 - 5
    else score1
  -- Criteria 3: loan activity in the current year
  let loans_current_year := (loans.filter (fun l => l.start_date.year == currentYear)).length
  let score3 : ℤ := if 2 < loans_current_year then score2 - 8 else score2
  -- Criteria 4: loan approved volume (Python truthiness plus `> 0` gives `0 < al`)
  let total_loan_amount_approved : ℚ := (loans.map (fun l => l.loan_amount)).sum
  let score4 : ℤ :=
    match customer.approved_limit with
    | none => score3
    | some al =>
      if 0 < al ∧ decMul al (3 / 2) < total_loan_amount_approved then score3 - 15 else score3
  -- Criteria 5: active loan volume above the approved limit forces the score to 0
  let total_current_loan_amount : ℚ := ((activeLoans loans).map (fun l => l.loan_amount)).sum
  let score5 : ℤ :=
    match customer.approved_limit with
    | none => score4
    | some al => if 0 < al ∧ al < total_current_loan_amount then 0 else score4
  max 0 score5

/-- `LoanEligibilityCheckSerializer.calculate_emi` (api/serializers.py).
Python raises `DivisionByZero` for `tenure = 0` in the simple branches; the model
returns `0` there (division by zero in `ℚ`), and every claim about this function
constrains the tenure to be positive. -/
def calculate_emi (loan_amount interest_rate : ℚ) (tenure : ℤ) : ℚ :=
  if interest_rate = 0 then decDiv loan_amount (tenure : ℚ)
  else
    let monthly_interest_rate := decDiv (decDiv interest_rate 12) 100
    let pow_factor := decPow (decAdd 1 monthly_interest_rate) tenure
    let numerator := decMul (decMul loan_amount monthly_interest_rate) pow_factor
    let denominator := decSub pow_factor 1
    if denominator = 0 then decDiv loan_amount (tenure : ℚ)
    else quantize2 (decDiv numerator denominator)

structure EligibilityResult where
  customer_id : ℕ
  approval : Bool
  interest_rate : ℚ
  corrected_interest_rate : ℚ
  tenure : ℤ
  monthly_installment : ℚ
deriving DecidableEq

/-- `LoanEligibilityCheckSerializer.get_eligibility_result` (api/serializers.py).
`step2` is the pair (approval, corrected_interest_rate) after the score-tier chain,
`step3` the pair (approval, monthly_installment) after the limit gate; the Python
code computes the same values by mutating local variables. The source merges the
`None` / `== 0` cases of `approved_limit` in a single `or` condition. -/
def get_eligibility_result (customer : Customer) (loans : List Loan) (currentYear : ℤ)
    (requested_loan_amount requested_interest_rate : ℚ) (tenure : ℤ) : EligibilityResult :=
  let credit_score := calculate_credit_score customer loans currentYear
  let total_current_emis : ℚ := ((activeLoans loans).map (fun l => l.monthly_repayment)).sum
  if 0 < customer.monthly_salary ∧ decDiv customer.monthly_salary 2 < total_current_emis then
    { customer_id := customer.customer_id
      approval := false
      interest_rate := requested_interest_rate
      corrected_interest_rate := requested_interest_rate
      tenure := tenure
      monthly_installment := 0 }
  else
    let step2 : Bool × ℚ :=
      if 50 < credit_score then (true, requested_interest_rate)
      else if 30 < credit_score ∧ credit_score ≤ 50 then
        (true, if requested_interest_rate < 12 then 12 else requested_interest_rate)
      else if 10 < credit_score ∧ credit_score ≤ 30 then
        (true, if requested_interest_rate < 16 then 16 else requested_interest_rate)
      else (false, requested_interest_rate)
    let step3 : Bool × ℚ :=
      if step2.1 then
        match customer.approved_limit with
        | none => if 0 < requested_loan_amount then (false, 0) else (true, 0)
        | some al =>
          if al = 0 then (if 0 < requested_loan_amount then (false, 0) else (true, 0))
          else if al < requested_loan_amount then (false, 0)
          else (true, calculate_emi requested_loan_amount step2.2 tenure)
      else (false, 0)
    { customer_id := customer.customer_id
      approval := step3.1
      interest_rate := requested_interest_rate
      corrected_interest_rate := step2.2
      tenure := tenure
      monthly_installment := step3.2 }

/-- The Step 3 limit gate as a predicate: whether a step-2 approval survives the
check of the requested amount against the customer's approved limit. -/
def limitGate (customer : Customer) (amt : ℚ) : Bool :=
  match customer.approved_limit with
  | none => decide (amt ≤ 0)
  | some al => if al = 0 then decide (amt ≤ 0) else decide (amt ≤ al)

structure LoanCreateResponse where
  loan_id : Option ℕ
  customer_id : ℕ
  loan_approved : Bool
  message : String
  monthly_installment : ℚ
deriving DecidableEq

/-- The effect of `LoanEligibilityCheckSerializer.create`: the possibly created Loan
row, the post-state of the customer, and the response record. -/
structure CreateOutcome where
  newLoan : Option Loan
  customer : Customer
  response : LoanCreateResponse
deriving DecidableEq

/-- `LoanEligibilityCheckSerializer.create` (api/serializers.py). `today` stands for
`timezone.now().date()` and `nextLoanId` for the auto-assigned primary key. The
customer debt update `current_debt += loan_amount` is a Python `Decimal` addition,
hence context-rounded. -/
def create (customer : Customer) (loans : List Loan) (currentYear : ℤ)
    (today : CalDate) (nextLoanId : ℕ)
    (loan_amount interest_rate : ℚ) (tenure : ℤ) : CreateOutcome :=
  let eligibility_result :=
    get_eligibility_result customer loans currentYear loan_amount interest_rate tenure
  if eligibility_result.approval then
    let start_date := today
    let end_date := addMonths start_date tenure
    let monthly_installment :=
      calculate_emi loan_amount eligibility_result.corrected_interest_rate tenure
    let loan : Loan :=
      { loan_id := nextLoanId
        loan_amount := loan_amount
        tenure := tenure
        interest_rate := eligibility_result.corrected_interest_rate
        monthly_repayment := monthly_installment
        emis_paid_on_time := 0
        start_date := start_date
        end_date := end_date
        loan_status := "active" }
    { newLoan := some loan
      customer := { customer with current_debt := decAdd customer.current_debt loan_amount }
      response :=
        { loan_id := some nextLoanId
          customer_id := customer.customer_id
          loan_approved := true
          message := "Loan approved successfully"
          monthly_installment := monthly_installment } }
  else
    { newLoan := none
      customer := customer
      response :=
        { loan_id := none
          customer_id := customer.customer_id
          loan_approved := false
          message := "Loan not approved based on eligibility criteria"
          monthly_installment := 0 } }

/-- A value storable in a Django `DecimalField` with 2 decimal places and at most
`intDigits` digits before the point: `100 q` is an integer and `|q| < 10 ^ intDigits`. -/
def StoredDec (intDigits : ℕ) (q : ℚ) : Prop :=
  (q * 100).den = 1 ∧ |q| < 10 ^ intDigits

theorem den_one_add (x y : ℚ) (hx : (x * 100).den = 1) (hy : (y * 100).den = 1) :
    ((x + y) * 100).den = 1 := by
  have hx1 := (Rat.den_eq_one_iff (x * 100)).mp hx
  have hy1 := (Rat.den_eq_one_iff (y * 100)).mp hy
  have h : (x + y) * 100 = (((x * 100).num + (y * 100).num : ℤ) : ℚ) := by
    push_cast
    rw [hx1, hy1]
    ring
  rw [h, Rat.den_intCast]

theorem decAdd_exact (x y : ℚ) (hx : (x * 100).den = 1) (hy : (y * 100).den = 1)
    (hb : |x + y| < (10 : ℚ) ^ (26 : ℤ)) : decAdd x y = x + y := by
  rw [decAdd]
  refine ctxRound_eq_self (x + y) 2 ?_ ?_
  · have h := den_one_add x y hx hy
    have h2 : (x + y) * 10 ^ 2 = (x + y) * 100 := by norm_num
    rw [h2]
    exact h
  · have h3 : ((28 : ℤ) - (2 : ℕ)) = 26 := by norm_num
    rw [h3]
    exact hb

theorem decDiv_two_exact (q : ℚ) (hq : (q * 100).den = 1)
    (hb : |q| < (10 : ℚ) ^ (24 : ℤ)) : decDiv q 2 = q / 2 := by
  rw [decDiv]
  refine ctxRound_eq_self (q / 2) 3 ?_ ?_
  · have hq1 := (Rat.den_eq_one_iff (q * 100)).mp hq
    have h : q / 2 * 10 ^ 3 = ((5 * (q * 100).num : ℤ) : ℚ) := by
      push_cast
      rw [hq1]
      ring
    rw [h, Rat.den_intCast]
  · have h1 : |q / 2| = |q| / 2 := by
      rw [abs_div]
      norm_num
    have h2 : ((28 : ℤ) - (3 : ℕ)) = 25 := by norm_num
    rw [h1, h2]
    have h3 : (10 : ℚ) ^ (24 : ℤ) ≤ 10 ^ (25 : ℤ) := by norm_num
    linarith
/-- Specification-side formula (§4.2 of the spec) in decimal arithmetic, with the
final 2-decimal rounding taking halves away from zero — the reading asserted by
claim C3. Compare with `calculate_emi`, whose `quantize` rounds halves to even. -/
def emiRoundedAwayFromZero (P a : ℚ) (n : ℤ) : ℚ :=
  let m := decDiv (decDiv a 12) 100
  let f := decPow (decAdd 1 m) n
  quantAway2 (decDiv (decMul (decMul P m) f) (decSub f 1))

/-- Specification-side formula in decimal arithmetic with the final 2-decimal
rounding taking halves to even: `round2(P * m * f / (f - 1))` with `m = (a/12)/100`
and `f = (1+m)^n`. -/
def emiRoundedHalfEven (P a : ℚ) (n : ℤ) : ℚ :=
  let m := decDiv (decDiv a 12) 100
  let f := decPow (decAdd 1 m) n
  quantize2 (decDiv (decMul (decMul P m) f) (decSub f 1))

/-- The exact (infinite-precision) value of the amortization formula implemented by
`calculate_emi`, with the same branch structure: `m = (a/12)/100 = a/1200`,
`f = (1+m)^n`, result `P*m*f/(f-1)`, falling back to `P/n` at rate `0` or when the
denominator vanishes. -/
def emiExact (P a : ℚ) (n : ℕ) : ℚ :=
  if a = 0 then P / n
  else
    let m := a / 1200
    let f := (1 + m) ^ n
    if f - 1 = 0 then P / n else P * m * f / (f - 1)

/-- Present-value annuity factor: the sum of the discount factors of the `n`
monthly payments at monthly rate `a/1200`. -/
def annuityFactor (a : ℚ) (n : ℕ) : ℚ :=
  ∑ k ∈ Finset.range n, ((1 + a / 1200)⁻¹) ^ (k + 1)

theorem annuityFactor_pos (a : ℚ) (n : ℕ) (ha : 0 ≤ a) (hn : 0 < n) :
    0 < annuityFactor a n := by
  have hx : (0 : ℚ) < 1 + a / 1200 := by linarith [div_nonneg ha (by norm_num : (0:ℚ) ≤ 1200)]
  refine Finset.sum_pos (fun k _ => ?_) ?_
  · exact pow_pos (inv_pos.mpr hx) _
  · exact Finset.nonempty_range_iff.mpr (by omega)

theorem annuityFactor_zero_rate (n : ℕ) : annuityFactor 0 n = n := by
  simp [annuityFactor]

theorem annuityFactor_anti_rate (a a' : ℚ) (n : ℕ) (ha : 0 ≤ a) (haa : a ≤ a') :
    annuityFactor a' n ≤ annuityFactor a n := by
  refine Finset.sum_le_sum (fun k _ => ?_)
  have hx : (0 : ℚ) < 1 + a / 1200 := by linarith [div_nonneg ha (by norm_num : (0:ℚ) ≤ 1200)]
  have hdd : a / 1200 ≤ a' / 1200 := (div_le_div_iff_of_pos_right (by norm_num : (0:ℚ) < 1200)).mpr haa
  have hle : 1 + a / 1200 ≤ 1 + a' / 1200 := by linarith
  have hinv : (1 + a' / 1200)⁻¹ ≤ (1 + a / 1200)⁻¹ := inv_anti₀ hx hle
  exact pow_le_pow_left₀ (inv_nonneg.mpr (le_of_lt (lt_of_lt_of_le hx hle))) hinv _

theorem annuityFactor_mono_tenure (a : ℚ) (n n' : ℕ) (ha : 0 ≤ a) (hnn : n ≤ n') :
    annuityFactor a n ≤ annuityFactor a n' := by
  have hx : (0 : ℚ) < 1 + a / 1200 := by linarith [div_nonneg ha (by norm_num : (0:ℚ) ≤ 1200)]
  refine Finset.sum_le_sum_of_subset_of_nonneg (Finset.range_subset.mpr hnn) ?_
  intro k _ _
  exact le_of_lt (pow_pos (inv_pos.mpr hx) _)

theorem annuityFactor_eq (a : ℚ) (n : ℕ) (ha : 0 < a) (hn : 0 < n) :
    annuityFactor a n
      = ((1 + a / 1200) ^ n - 1) / ((a / 1200) * (1 + a / 1200) ^ n) := by
  have hm : (0 : ℚ) < a / 1200 := by positivity
  have hx : (0 : ℚ) < 1 + a / 1200 := by linarith
  have hx0 : (1 + a / 1200) ≠ 0 := ne_of_gt hx
  induction n with
  | zero => omega
  | succ k ih =>
    rcases Nat.eq_zero_or_pos k with rfl | hk
    · rw [annuityFactor]
      rw [Finset.sum_range_one]
      rw [pow_one, pow_one]
      field_simp
      ring
    · have hxk : (1 + a / 1200) ^ k ≠ 0 := pow_ne_zero _ hx0
      have hxk1 : (1 + a / 1200) ^ (k + 1) ≠ 0 := pow_ne_zero _ hx0
      rw [annuityFactor, Finset.sum_range_succ, ← annuityFactor, ih hk]
      rw [pow_succ]
      field_simp
      ring

theorem emiExact_eq (P a : ℚ) (n : ℕ) (ha : 0 ≤ a) (hn : 0 < n) :
    emiExact P a n = P / annuityFactor a n := by
  rcases eq_or_lt_of_le ha with rfl | hpos
  · rw [emiExact, if_pos rfl, annuityFactor_zero_rate]
  · have hm : (0 : ℚ) < a / 1200 := by positivity
    have hx : (1 : ℚ) < 1 + a / 1200 := by linarith
    have hf : (1 : ℚ) < (1 + a / 1200) ^ n := one_lt_pow₀ hx (by omega)
    have hfne : (1 + a / 1200) ^ n - 1 ≠ 0 := by linarith
    rw [emiExact, if_neg (ne_of_gt hpos)]
    simp only []
    rw [if_neg hfne, annuityFactor_eq a n hpos hn]
    have hx0 : (1 + a / 1200) ≠ 0 := by linarith
    have hfn0 : (1 + a / 1200) ^ n ≠ 0 := pow_ne_zero _ hx0
    field_simp
    ring
/-! Concrete evaluations of the decimal pipeline, via the characterization lemmas
(`ctxRound_eq_self` for values of at most 28 significant digits, `ctxRound_eval`
with `rndHE_of_lt` / `rndHE_tie` where real rounding happens). -/

theorem ctxRound_id_pos (q : ℚ) (d : ℕ) (h0 : 0 < q) (hden : (q * 10 ^ d).den = 1)
    (habs : q < (10 : ℚ) ^ ((28 : ℤ) - d)) : ctxRound q = q :=
  ctxRound_eq_self q d hden (by rwa [abs_of_pos h0])

theorem ctxRound_id_neg (q : ℚ) (d : ℕ) (h0 : q < 0) (hden : (q * 10 ^ d).den = 1)
    (habs : -q < (10 : ℚ) ^ ((28 : ℤ) - d)) : ctxRound q = q :=
  ctxRound_eq_self q d hden (by rwa [abs_of_neg h0])

theorem ctxRound_eval_pos_up (q : ℚ) (e n : ℤ) (h0 : 0 < q)
    (hlow : (10 : ℚ) ^ e ≤ q) (hhigh : q < (10 : ℚ) ^ (e + 1))
    (hn1 : (n : ℚ) + 1 / 2 < q * (10 : ℚ) ^ (27 - e)) (hn2 : q * (10 : ℚ) ^ (27 - e) ≤ (n : ℚ) + 1) :
    ctxRound q = ((n + 1 : ℤ) : ℚ) / (10 : ℚ) ^ (27 - e) :=
  ctxRound_eval q e (n + 1) (ne_of_gt h0) (by rwa [abs_of_pos h0]) (by rwa [abs_of_pos h0])
    (rndHE_of_gt _ n hn1 hn2)

theorem ctxRound_eval_pos (q : ℚ) (e n : ℤ) (h0 : 0 < q)
    (hlow : (10 : ℚ) ^ e ≤ q) (hhigh : q < (10 : ℚ) ^ (e + 1))
    (hn1 : (n : ℚ) ≤ q * (10 : ℚ) ^ (27 - e)) (hn2 : q * (10 : ℚ) ^ (27 - e) < (n : ℚ) + 1 / 2) :
    ctxRound q = (n : ℚ) / (10 : ℚ) ^ (27 - e) :=
  ctxRound_eval q e n (ne_of_gt h0) (by rwa [abs_of_pos h0]) (by rwa [abs_of_pos h0])
    (rndHE_of_lt _ n hn1 hn2)

theorem decDiv_twelve_twelve : decDiv (12 : ℚ) 12 = 1 := by
  rw [decDiv, show ((12 : ℚ) / 12) = 1 by norm_num]
  exact ctxRound_id_pos 1 0 (by norm_num) (by norm_num) (by norm_num)

theorem decDiv_one_hundred : decDiv (1 : ℚ) 100 = 1 / 100 := by
  rw [decDiv, show ((1 : ℚ) / 100) = 1 / 100 by norm_num]
  exact ctxRound_id_pos (1 / 100) 2 (by norm_num) (by norm_num) (by norm_num)

theorem decAdd_one_centi : decAdd (1 : ℚ) (1 / 100) = 101 / 100 := by
  rw [decAdd, show ((1 : ℚ) + 1 / 100) = 101 / 100 by norm_num]
  exact ctxRound_id_pos (101 / 100) 2 (by norm_num) (by norm_num) (by norm_num)

theorem decPow_ratefactor_one : decPow ((101 : ℚ) / 100) 1 = 101 / 100 := by
  rw [decPow, show (((101 : ℚ) / 100) ^ (1 : ℤ)) = 101 / 100 by norm_num]
  exact ctxRound_id_pos (101 / 100) 2 (by norm_num) (by norm_num) (by norm_num)

theorem decSub_ratefactor_one : decSub ((101 : ℚ) / 100) 1 = 1 / 100 := by
  rw [decSub, show (((101 : ℚ) / 100) - 1) = 1 / 100 by norm_num]
  exact ctxRound_id_pos (1 / 100) 2 (by norm_num) (by norm_num) (by norm_num)

/-- `calculate_emi(-1, 12, 1) = -1.01`: the EMI of a negative principal is negative. -/
theorem emi_neg_one : calculate_emi (-1) 12 1 = -(101 / 100) := by
  rw [calculate_emi, if_neg (by norm_num : ¬(12 : ℚ) = 0)]
  simp only [decDiv_twelve_twelve, decDiv_one_hundred, decAdd_one_centi, decPow_ratefactor_one,
    decSub_ratefactor_one]
  rw [if_neg (by norm_num : ¬(1 : ℚ) / 100 = 0)]
  have h1 : decMul (-1 : ℚ) (1 / 100) = -(1 / 100) := by
    rw [decMul, show ((-1 : ℚ) * (1 / 100)) = -(1 / 100) by norm_num]
    exact ctxRound_id_neg (-(1 / 100)) 2 (by norm_num) (by norm_num) (by norm_num)
  have h2 : decMul (-(1 / 100) : ℚ) (101 / 100) = -(101 / 10000) := by
    rw [decMul, show ((-(1 / 100) : ℚ) * (101 / 100)) = -(101 / 10000) by norm_num]
    exact ctxRound_id_neg (-(101 / 10000)) 4 (by norm_num) (by norm_num) (by norm_num)
  have h3 : decDiv (-(101 / 10000) : ℚ) (1 / 100) = -(101 / 100) := by
    rw [decDiv, show ((-(101 / 10000) : ℚ) / (1 / 100)) = -(101 / 100) by norm_num]
    exact ctxRound_id_neg (-(101 / 100)) 2 (by norm_num) (by norm_num) (by norm_num)
  rw [h1, h2, h3]
  rw [quantize2, show ((-(101 / 100) : ℚ) * 100) = ((-101 : ℤ) : ℚ) by norm_num, rndHE_intCast]
  norm_num

/-- `calculate_emi(2.50, 12, 1)`: the exact quotient is `2.525`, a tie at 2 decimals,
and `quantize` rounds it to even: `2.52`. -/
theorem emi_tie_value : calculate_emi (5 / 2) 12 1 = 252 / 100 := by
  rw [calculate_emi, if_neg (by norm_num : ¬(12 : ℚ) = 0)]
  simp only [decDiv_twelve_twelve, decDiv_one_hundred, decAdd_one_centi, decPow_ratefactor_one,
    decSub_ratefactor_one]
  rw [if_neg (by norm_num : ¬(1 : ℚ) / 100 = 0)]
  have h1 : decMul ((5 : ℚ) / 2) (1 / 100) = 1 / 40 := by
    rw [decMul, show (((5 : ℚ) / 2) * (1 / 100)) = 1 / 40 by norm_num]
    exact ctxRound_id_pos (1 / 40) 3 (by norm_num) (by norm_num) (by norm_num)
  have h2 : decMul ((1 : ℚ) / 40) (101 / 100) = 101 / 4000 := by
    rw [decMul, show (((1 : ℚ) / 40) * (101 / 100)) = 101 / 4000 by norm_num]
    exact ctxRound_id_pos (101 / 4000) 5 (by norm_num) (by norm_num) (by norm_num)
  have h3 : decDiv ((101 : ℚ) / 4000) (1 / 100) = 101 / 40 := by
    rw [decDiv, show (((101 : ℚ) / 4000) / (1 / 100)) = 101 / 40 by norm_num]
    exact ctxRound_id_pos (101 / 40) 3 (by norm_num) (by norm_num) (by norm_num)
  rw [h1, h2, h3]
  rw [quantize2, rndHE_tie _ 252 (by norm_num), if_pos (by norm_num : (252 : ℤ) % 2 = 0)]
  norm_num

/-- The spec-side half-away-from-zero formula at the same input rounds `2.525`
up to `2.53`. -/
theorem emiAway_tie_value : emiRoundedAwayFromZero (5 / 2) 12 1 = 253 / 100 := by
  simp only [emiRoundedAwayFromZero]
  simp only [decDiv_twelve_twelve, decDiv_one_hundred, decAdd_one_centi, decPow_ratefactor_one,
    decSub_ratefactor_one]
  have h1 : decMul ((5 : ℚ) / 2) (1 / 100) = 1 / 40 := by
    rw [decMul, show (((5 : ℚ) / 2) * (1 / 100)) = 1 / 40 by norm_num]
    exact ctxRound_id_pos (1 / 40) 3 (by norm_num) (by norm_num) (by norm_num)
  have h2 : decMul ((1 : ℚ) / 40) (101 / 100) = 101 / 4000 := by
    rw [decMul, show (((1 : ℚ) / 40) * (101 / 100)) = 101 / 4000 by norm_num]
    exact ctxRound_id_pos (101 / 4000) 5 (by norm_num) (by norm_num) (by norm_num)
  have h3 : decDiv ((101 : ℚ) / 4000) (1 / 100) = 101 / 40 := by
    rw [decDiv, show (((101 : ℚ) / 4000) / (1 / 100)) = 101 / 40 by norm_num]
    exact ctxRound_id_pos (101 / 40) 3 (by norm_num) (by norm_num) (by norm_num)
  rw [h1, h2, h3]
  rw [quantAway2, rndAway, if_pos (by norm_num : (0 : ℚ) ≤ (101 / 40 : ℚ) * 100)]
  rw [show ((101 / 40 : ℚ) * 100 + 1 / 2) = ((253 : ℤ) : ℚ) by norm_num, Int.floor_intCast]
  norm_num

/-- `calculate_emi(1.00, 0, 3)`: the zero-rate branch returns the unrounded 28-digit
quotient `0.3333333333333333333333333333`. -/
theorem emi_zero_rate_value :
    calculate_emi 1 0 3 = 3333333333333333333333333333 / 10 ^ 28 := by
  rw [calculate_emi, if_pos (by norm_num : (0 : ℚ) = 0)]
  rw [decDiv, show ((1 : ℚ) / ((3 : ℤ) : ℚ)) = 1 / 3 by norm_num]
  calc ctxRound ((1 : ℚ) / 3)
      = ((3333333333333333333333333333 : ℤ) : ℚ) / (10 : ℚ) ^ ((27 : ℤ) - (-1)) :=
        ctxRound_eval_pos (1 / 3) (-1) 3333333333333333333333333333 (by norm_num)
          (by norm_num) (by norm_num) (by norm_num) (by norm_num)
  _ = 3333333333333333333333333333 / 10 ^ 28 := by norm_num

/-- `calculate_emi(1.00, 0.01, 3) = 0.33`: the full 28-digit pipeline for a small
positive rate, ending in a 2-decimal quantization. -/
theorem emi_smallrate_value : calculate_emi 1 (1 / 100) 3 = 33 / 100 := by
  rw [calculate_emi, if_neg (by norm_num : ¬(1 : ℚ) / 100 = 0)]
  have hA : decDiv ((1 : ℚ) / 100) 12 = 8333333333333333333333333333 / 10 ^ 31 := by
    rw [decDiv, show (((1 : ℚ) / 100) / 12) = 1 / 1200 by norm_num]
    calc ctxRound ((1 : ℚ) / 1200)
        = ((8333333333333333333333333333 : ℤ) : ℚ) / (10 : ℚ) ^ ((27 : ℤ) - (-4)) :=
          ctxRound_eval_pos (1 / 1200) (-4) 8333333333333333333333333333 (by norm_num)
            (by norm_num) (by norm_num) (by norm_num) (by norm_num)
    _ = 8333333333333333333333333333 / 10 ^ 31 := by norm_num
  have hB : decDiv ((8333333333333333333333333333 : ℚ) / 10 ^ 31) 100
      = 8333333333333333333333333333 / 10 ^ 33 := by
    rw [decDiv,
      show (((8333333333333333333333333333 : ℚ) / 10 ^ 31) / 100)
        = 8333333333333333333333333333 / 10 ^ 33 by norm_num]
    exact ctxRound_id_pos _ 33 (by norm_num) (by norm_num) (by norm_num)
  have hC : decAdd 1 ((8333333333333333333333333333 : ℚ) / 10 ^ 33)
      = 1000008333333333333333333333 / 10 ^ 27 := by
    rw [decAdd,
      show ((1 : ℚ) + (8333333333333333333333333333 : ℚ) / 10 ^ 33)
        = 1000008333333333333333333333333333 / 10 ^ 33 by norm_num]
    calc ctxRound ((1000008333333333333333333333333333 : ℚ) / 10 ^ 33)
        = ((1000008333333333333333333333 : ℤ) : ℚ) / (10 : ℚ) ^ ((27 : ℤ) - 0) :=
          ctxRound_eval_pos _ 0 1000008333333333333333333333 (by norm_num)
            (by norm_num) (by norm_num) (by norm_num) (by norm_num)
    _ = 1000008333333333333333333333 / 10 ^ 27 := by norm_num
  have hD : decPow ((1000008333333333333333333333 : ℚ) / 10 ^ 27) 3
      = 1000025000208333912037037036 / 10 ^ 27 := by
    rw [decPow]
    calc ctxRound (((1000008333333333333333333333 : ℚ) / 10 ^ 27) ^ (3 : ℤ))
        = ((1000025000208333912037037036 : ℤ) : ℚ) / (10 : ℚ) ^ ((27 : ℤ) - 0) :=
          ctxRound_eval_pos _ 0 1000025000208333912037037036 (by norm_num)
            (by norm_num) (by norm_num) (by norm_num) (by norm_num)
    _ = 1000025000208333912037037036 / 10 ^ 27 := by norm_num
  have hE : decMul 1 ((8333333333333333333333333333 : ℚ) / 10 ^ 33)
      = 8333333333333333333333333333 / 10 ^ 33 := by
    rw [decMul,
      show ((1 : ℚ) * ((8333333333333333333333333333 : ℚ) / 10 ^ 33))
        = 8333333333333333333333333333 / 10 ^ 33 by norm_num]
    exact ctxRound_id_pos _ 33 (by norm_num) (by norm_num) (by norm_num)
  have hF : decMul ((8333333333333333333333333333 : ℚ) / 10 ^ 33)
      ((1000025000208333912037037036 : ℚ) / 10 ^ 27)
      = 8333541668402782600308641966 / 10 ^ 33 := by
    rw [decMul]
    calc ctxRound (((8333333333333333333333333333 : ℚ) / 10 ^ 33)
          * ((1000025000208333912037037036 : ℚ) / 10 ^ 27))
        = ((8333541668402782600308641966 : ℤ) : ℚ) / (10 : ℚ) ^ ((27 : ℤ) - (-6)) :=
          ctxRound_eval_pos _ (-6) 8333541668402782600308641966 (by norm_num)
            (by norm_num) (by norm_num) (by norm_num) (by norm_num)
    _ = 8333541668402782600308641966 / 10 ^ 33 := by norm_num
  have hG : decSub ((1000025000208333912037037036 : ℚ) / 10 ^ 27) 1
      = 25000208333912037037036 / 10 ^ 27 := by
    rw [decSub,
      show (((1000025000208333912037037036 : ℚ) / 10 ^ 27) - 1)
        = 25000208333912037037036 / 10 ^ 27 by norm_num]
    exact ctxRound_id_pos _ 27 (by norm_num) (by norm_num) (by norm_num)
  have hH : decDiv ((8333541668402782600308641966 : ℚ) / 10 ^ 33)
      ((25000208333912037037036 : ℚ) / 10 ^ 27)
      = 3333388889043209233541019042 / 10 ^ 28 := by
    rw [decDiv]
    calc ctxRound (((8333541668402782600308641966 : ℚ) / 10 ^ 33)
          / ((25000208333912037037036 : ℚ) / 10 ^ 27))
        = ((3333388889043209233541019041 + 1 : ℤ) : ℚ) / (10 : ℚ) ^ ((27 : ℤ) - (-1)) :=
          ctxRound_eval_pos_up _ (-1) 3333388889043209233541019041 (by norm_num)
            (by norm_num) (by norm_num) (by norm_num) (by norm_num)
    _ = 3333388889043209233541019042 / 10 ^ 28 := by norm_num
  simp only [hA, hB, hC, hD, hE, hF, hG]
  rw [if_neg (by norm_num : ¬(25000208333912037037036 : ℚ) / 10 ^ 27 = 0)]
  rw [hH]
  rw [quantize2, rndHE_of_lt _ 33 (by norm_num) (by norm_num)]
  norm_num

/-- Evaluation of the decimal denominator `f - 1` at rate 12 percent, tenure 12:
`1.01 ^ 12` is exact within 28 digits. -/
theorem dec_denominator_twelve :
    decSub (decPow (decAdd 1 (decDiv (decDiv (12 : ℚ) 12) 100)) 12) 1
      = 126825030131969720661201 / 10 ^ 24 := by
  rw [decDiv_twelve_twelve, decDiv_one_hundred, decAdd_one_centi]
  have hP : decPow ((101 : ℚ) / 100) 12 = 1126825030131969720661201 / 10 ^ 24 := by
    rw [decPow, show (((101 : ℚ) / 100) ^ (12 : ℤ)) = 1126825030131969720661201 / 10 ^ 24 by
      norm_num]
    exact ctxRound_id_pos _ 24 (by norm_num) (by norm_num) (by norm_num)
  rw [hP, decSub,
    show (((1126825030131969720661201 : ℚ) / 10 ^ 24) - 1)
      = 126825030131969720661201 / 10 ^ 24 by norm_num]
  exact ctxRound_id_pos _ 24 (by norm_num) (by norm_num) (by norm_num)
/-! Claim theorems. -/

/-- C4: whenever the customer's approved limit is positive and the active loans'
amounts sum to strictly more than it, `calculate_credit_score` returns exactly 0,
regardless of which of deduction rules 1-4 applied. -/
theorem credit_score_override_zero (c : Customer) (loans : List Loan) (year : ℤ) (al : ℚ)
    (hal : c.approved_limit = some al) (hpos : 0 < al)
    (hsum : al < ((activeLoans loans).map (fun l => l.loan_amount)).sum) :
    calculate_credit_score c loans year = 0 := by
  simp only [calculate_credit_score, hal]
  rw [if_pos ⟨hpos, hsum⟩]
  norm_num

def custC4 : Customer :=
  { customer_id := 5, first_name := "E", last_name := "F", phone_number := "5"
    monthly_salary := 5000, approved_limit := some 100, current_debt := 200, age := 40 }

def loanC4 : Loan :=
  { loan_id := 11, loan_amount := 200, tenure := 12, interest_rate := 10
    monthly_repayment := 20, emis_paid_on_time := 6, start_date := ⟨2024, 1, 10⟩
    end_date := ⟨2025, 1, 10⟩, loan_status := "active" }

/-- Witness for C4 at a concrete state: limit 100, one active loan of 200. -/
theorem credit_score_override_zero_witness :
    custC4.approved_limit = some 100 ∧ (0 : ℚ) < 100
      ∧ (100 : ℚ) < ((activeLoans [loanC4]).map (fun l => l.loan_amount)).sum
      ∧ calculate_credit_score custC4 [loanC4] 2025 = 0 := by
  have h1 : custC4.approved_limit = some 100 := rfl
  have h2 : (0 : ℚ) < 100 := by norm_num
  have h3 : (100 : ℚ) < ((activeLoans [loanC4]).map (fun l => l.loan_amount)).sum := by
    simp only [activeLoans, loanC4, List.filter, List.map, List.sum_cons, List.sum_nil]
    norm_num
  exact ⟨h1, h2, h3, credit_score_override_zero custC4 [loanC4] 2025 100 h1 h2 h3⟩

set_option maxHeartbeats 1600000 in
/-- C6: the credit score always lies in [0, 100], and a customer with no loans at
all scores exactly 100. -/
theorem credit_score_bounds : ∀ (c : Customer) (loans : List Loan) (year : ℤ),
    (0 ≤ calculate_credit_score c loans year ∧ calculate_credit_score c loans year ≤ 100)
      ∧ calculate_credit_score c [] year = 100 := by
  intro c loans year
  constructor
  · cases hal : c.approved_limit with
    | none =>
      simp only [calculate_credit_score, hal]
      split_ifs <;> omega
    | some al =>
      simp only [calculate_credit_score, hal]
      split_ifs <;> omega
  · cases hal : c.approved_limit with
    | none =>
      simp [calculate_credit_score, hal, activeLoans]
    | some al =>
      have h4 : ¬(0 < al ∧ decMul al (3 / 2) < (([] : List Loan).map (fun l => l.loan_amount)).sum) := by
        rintro ⟨h1, h2⟩
        have h3 : 0 ≤ decMul al (3 / 2) := ctxRound_nonneg _ (by positivity)
        simp at h2
        linarith
      have h5 : ¬(0 < al ∧ al < ((activeLoans ([] : List Loan)).map (fun l => l.loan_amount)).sum) := by
        rintro ⟨h1, h2⟩
        simp [activeLoans] at h2
        linarith
      simp only [calculate_credit_score, hal]
      rw [if_neg h5, if_neg h4]
      simp
set_option maxHeartbeats 1600000 in
/-- In every branch of the eligibility check, a rejected result carries a zero
installment. -/
theorem elig_rejected_installment_zero (c : Customer) (loans : List Loan) (year : ℤ)
    (amt rate : ℚ) (n : ℤ)
    (h : (get_eligibility_result c loans year amt rate n).approval = false) :
    (get_eligibility_result c loans year amt rate n).monthly_installment = 0 := by
  set s := calculate_credit_score c loans year with hs
  revert h
  cases hal : c.approved_limit with
  | none =>
    simp only [get_eligibility_result, hal, ← hs]
    split_ifs <;> simp
  | some al =>
    simp only [get_eligibility_result, hal, ← hs]
    split_ifs <;> simp

/-- C1: outside the hard EMI gate, the corrected rate follows the score tiers and the
approval is the tier approval (score above 10) filtered by the Step 3 limit gate. -/
theorem eligibility_score_tiers (c : Customer) (loans : List Loan) (year : ℤ)
    (amt rate : ℚ) (n : ℤ)
    (hGate : ¬(0 < c.monthly_salary ∧
      decDiv c.monthly_salary 2 < ((activeLoans loans).map (fun l => l.monthly_repayment)).sum)) :
    (50 < calculate_credit_score c loans year →
        (get_eligibility_result c loans year amt rate n).corrected_interest_rate = rate
          ∧ (get_eligibility_result c loans year amt rate n).approval = limitGate c amt)
      ∧ (30 < calculate_credit_score c loans year ∧ calculate_credit_score c loans year ≤ 50 →
        (get_eligibility_result c loans year amt rate n).corrected_interest_rate
            = (if rate < 12 then 12 else rate)
          ∧ (get_eligibility_result c loans year amt rate n).approval = limitGate c amt)
      ∧ (10 < calculate_credit_score c loans year ∧ calculate_credit_score c loans year ≤ 30 →
        (get_eligibility_result c loans year amt rate n).corrected_interest_rate
            = (if rate < 16 then 16 else rate)
          ∧ (get_eligibility_result c loans year amt rate n).approval = limitGate c amt)
      ∧ (calculate_credit_score c loans year ≤ 10 →
        (get_eligibility_result c loans year amt rate n).approval = false) := by
  set s := calculate_credit_score c loans year with hs
  cases hal : c.approved_limit with
  | none =>
    simp only [get_eligibility_result, limitGate, hal, ← hs, if_neg hGate]
    refine ⟨fun h50 => ?_, fun h3050 => ?_, fun h1030 => ?_, fun h10 => ?_⟩
    · rw [if_pos h50]
      refine ⟨rfl, ?_⟩
      split_ifs <;> simp_all [not_le, le_of_not_lt]
    · rw [if_neg (show ¬50 < s by omega), if_pos (show 30 < s ∧ s ≤ 50 by omega)]
      refine ⟨rfl, ?_⟩
      split_ifs <;> simp_all [not_le, le_of_not_lt]
    · rw [if_neg (show ¬50 < s by omega), if_neg (show ¬(30 < s ∧ s ≤ 50) by omega),
        if_pos (show 10 < s ∧ s ≤ 30 by omega)]
      refine ⟨rfl, ?_⟩
      split_ifs <;> simp_all [not_le, le_of_not_lt]
    · rw [if_neg (show ¬50 < s by omega), if_neg (show ¬(30 < s ∧ s ≤ 50) by omega),
        if_neg (show ¬(10 < s ∧ s ≤ 30) by omega)]
      simp
  | some al =>
    simp only [get_eligibility_result, limitGate, hal, ← hs, if_neg hGate]
    refine ⟨fun h50 => ?_, fun h3050 => ?_, fun h1030 => ?_, fun h10 => ?_⟩
    · rw [if_pos h50]
      refine ⟨rfl, ?_⟩
      split_ifs <;> simp_all [not_le, le_of_not_lt]
    · rw [if_neg (show ¬50 < s by omega), if_pos (show 30 < s ∧ s ≤ 50 by omega)]
      refine ⟨rfl, ?_⟩
      split_ifs <;> simp_all [not_le, le_of_not_lt]
    · rw [if_neg (show ¬50 < s by omega), if_neg (show ¬(30 < s ∧ s ≤ 50) by omega),
        if_pos (show 10 < s ∧ s ≤ 30 by omega)]
      refine ⟨rfl, ?_⟩
      split_ifs <;> simp_all [not_le, le_of_not_lt]
    · rw [if_neg (show ¬50 < s by omega), if_neg (show ¬(30 < s ∧ s ≤ 50) by omega),
        if_neg (show ¬(10 < s ∧ s ≤ 30) by omega)]
      simp
theorem tier_pair_fst (s : ℤ) (x y z w : ℚ) (h : 10 < s) :
    (if 50 < s then (true, x)
     else if 30 < s ∧ s ≤ 50 then (true, y)
     else if 10 < s ∧ s ≤ 30 then (true, z)
     else (false, w)).1 = true := by
  split_ifs <;> first | rfl | omega

theorem decMul_zero_left (x : ℚ) : decMul 0 x = 0 := by
  rw [decMul, zero_mul, ctxRound_zero]

theorem decDiv_zero_left (x : ℚ) : decDiv 0 x = 0 := by
  rw [decDiv, zero_div, ctxRound_zero]

theorem quantize2_zero : quantize2 0 = 0 := by
  rw [quantize2, show ((0 : ℚ) * 100) = ((0 : ℤ) : ℚ) by norm_num, rndHE_intCast]
  norm_num

/-- The EMI of a zero principal is zero in every branch. -/
theorem calculate_emi_zero_amount (rate : ℚ) (n : ℤ) : calculate_emi 0 rate n = 0 := by
  simp only [calculate_emi, decMul_zero_left, decDiv_zero_left]
  split_ifs <;> first | rfl | exact quantize2_zero

set_option maxHeartbeats 1600000 in
/-- C5 (amended): with step-2 approval in hand, the limit gate rejects a zero or
unset limit together with a positive requested amount, rejects any request above a
positive limit, and otherwise lets the approval stand; the installment is the EMI
of the corrected rate exactly in the positive-limit branch, and stays 0 for a
zero-limit customer with nonpositive amount; a rejected check always reports a
zero installment. -/
theorem eligibility_limit_gate (c : Customer) (loans : List Loan) (year : ℤ)
    (amt rate : ℚ) (n : ℤ)
    (hGate : ¬(0 < c.monthly_salary ∧
      decDiv c.monthly_salary 2 < ((activeLoans loans).map (fun l => l.monthly_repayment)).sum))
    (hscore : 10 < calculate_credit_score c loans year) :
    ((c.approved_limit = none ∨ c.approved_limit = some 0) → 0 < amt →
        (get_eligibility_result c loans year amt rate n).approval = false)
      ∧ ((c.approved_limit = none ∨ c.approved_limit = some 0) → amt ≤ 0 →
        (get_eligibility_result c loans year amt rate n).approval = true
          ∧ (get_eligibility_result c loans year amt rate n).monthly_installment = 0)
      ∧ (∀ al : ℚ, c.approved_limit = some al → al ≠ 0 → al < amt →
        (get_eligibility_result c loans year amt rate n).approval = false)
      ∧ (∀ al : ℚ, c.approved_limit = some al → al ≠ 0 → amt ≤ al →
        (get_eligibility_result c loans year amt rate n).approval = true
          ∧ (get_eligibility_result c loans year amt rate n).monthly_installment
              = calculate_emi amt
                  (get_eligibility_result c loans year amt rate n).corrected_interest_rate n)
      ∧ ((get_eligibility_result c loans year amt rate n).approval = false →
        (get_eligibility_result c loans year amt rate n).monthly_installment = 0) := by
  set s := calculate_credit_score c loans year with hs
  have hpair := tier_pair_fst s rate (if rate < 12 then 12 else rate)
    (if rate < 16 then 16 else rate) rate hscore
  refine ⟨?_, ?_, ?_, ?_, elig_rejected_installment_zero c loans year amt rate n⟩
  · rintro (hal | hal) hamt <;>
    · simp only [get_eligibility_result, hal, ← hs, if_neg hGate]
      rw [if_pos hpair]
      simp [hamt]
  · rintro (hal | hal) hamt <;>
    · simp only [get_eligibility_result, hal, ← hs, if_neg hGate]
      rw [if_pos hpair]
      simp [not_lt.mpr hamt]
  · intro al hal hne hlt
    simp only [get_eligibility_result, hal, ← hs, if_neg hGate]
    rw [if_pos hpair]
    simp [hne, hlt]
  · intro al hal hne hle
    simp only [get_eligibility_result, hal, ← hs, if_neg hGate]
    rw [if_pos hpair]
    simp [hne, not_lt.mpr hle]

set_option maxHeartbeats 1600000 in
/-- Under an approved eligibility check with nonnegative requested amount, the
reported installment is precisely the EMI of the corrected rate (for a zero or
unset limit the approved amount is 0, whose EMI is 0). -/
theorem elig_approved_installment (c : Customer) (loans : List Loan) (year : ℤ)
    (amt rate : ℚ) (n : ℤ) (hamt : 0 ≤ amt)
    (happ : (get_eligibility_result c loans year amt rate n).approval = true) :
    (get_eligibility_result c loans year amt rate n).monthly_installment
      = calculate_emi amt
          (get_eligibility_result c loans year amt rate n).corrected_interest_rate n := by
  set s := calculate_credit_score c loans year with hs
  revert happ
  cases hal : c.approved_limit with
  | none =>
    simp only [get_eligibility_result, hal, ← hs]
    split_ifs <;> intro happ <;>
      first
        | (have h0 : amt = 0 := le_antisymm (not_lt.mp (by assumption)) hamt
           simp_all [calculate_emi_zero_amount])
        | simp_all
  | some al =>
    simp only [get_eligibility_result, hal, ← hs]
    split_ifs <;> intro happ <;>
      first
        | (have h0 : amt = 0 := le_antisymm (not_lt.mp (by assumption)) hamt
           simp_all [calculate_emi_zero_amount])
        | simp_all
/-! Concrete states for the remaining claims, and shared evaluation helpers. -/

def custZeroLimit : Customer :=
  { customer_id := 2, first_name := "C", last_name := "D", phone_number := "2"
    monthly_salary := 1000, approved_limit := some 0, current_debt := 0, age := 28 }

def custOk : Customer :=
  { customer_id := 3, first_name := "G", last_name := "H", phone_number := "3"
    monthly_salary := 1000, approved_limit := some 1000000, current_debt := 100, age := 35 }

def custC2 : Customer :=
  { customer_id := 4, first_name := "I", last_name := "J", phone_number := "4"
    monthly_salary := 10000, approved_limit := some 50000, current_debt := 0, age := 45 }

def loanC2 : Loan :=
  { loan_id := 21, loan_amount := 10000, tenure := 24, interest_rate := 10
    monthly_repayment := 5001, emis_paid_on_time := 12, start_date := ⟨2024, 1, 1⟩
    end_date := ⟨2026, 1, 1⟩, loan_status := "active" }

theorem calculate_credit_score_nil (c : Customer) (year : ℤ) :
    calculate_credit_score c [] year = 100 := by
  cases hal : c.approved_limit with
  | none =>
    simp [calculate_credit_score, hal, activeLoans]
  | some al =>
    have h4 : ¬(0 < al ∧ decMul al (3 / 2) < (([] : List Loan).map (fun l => l.loan_amount)).sum) := by
      rintro ⟨h1, h2⟩
      have h3 : 0 ≤ decMul al (3 / 2) := ctxRound_nonneg _ (by positivity)
      simp at h2
      linarith
    have h5 : ¬(0 < al ∧ al < ((activeLoans ([] : List Loan)).map (fun l => l.loan_amount)).sum) := by
      rintro ⟨h1, h2⟩
      simp [activeLoans] at h2
      linarith
    simp only [calculate_credit_score, hal]
    rw [if_neg h5, if_neg h4]
    simp

theorem gate_false_of_nonpos_emis (c : Customer) (loans : List Loan)
    (hsum : ((activeLoans loans).map (fun l => l.monthly_repayment)).sum ≤ 0) :
    ¬(0 < c.monthly_salary ∧
      decDiv c.monthly_salary 2 < ((activeLoans loans).map (fun l => l.monthly_repayment)).sum) := by
  rintro ⟨h1, h2⟩
  have h3 : 0 ≤ decDiv c.monthly_salary 2 := by
    rw [decDiv]
    exact ctxRound_nonneg _ (div_nonneg (le_of_lt h1) (by norm_num))
  linarith

theorem elig_zeroLimit_neg :
    get_eligibility_result custZeroLimit [] 2025 (-1) 12 1
      = { customer_id := 2, approval := true, interest_rate := 12
          corrected_interest_rate := 12, tenure := 1, monthly_installment := 0 } := by
  have hGate := gate_false_of_nonpos_emis custZeroLimit [] (by simp [activeLoans])
  have hs := calculate_credit_score_nil custZeroLimit 2025
  simp only [get_eligibility_result, hs]
  rw [if_neg hGate]
  norm_num [custZeroLimit]

theorem elig_custOk : (get_eligibility_result custOk [] 2025 500 8 12).approval = true := by
  have hGate := gate_false_of_nonpos_emis custOk [] (by simp [activeLoans])
  have hs := calculate_credit_score_nil custOk 2025
  simp only [get_eligibility_result, hs]
  rw [if_neg hGate]
  norm_num [custOk]

/-- Witness for C1: a fresh customer with no loans scores 100, landing in the top
tier where the requested rate 8 percent is kept unchanged. -/
theorem eligibility_score_tiers_witness :
    ¬(0 < custOk.monthly_salary ∧ decDiv custOk.monthly_salary 2
        < ((activeLoans ([] : List Loan)).map (fun l => l.monthly_repayment)).sum)
      ∧ 50 < calculate_credit_score custOk [] 2025
      ∧ ((get_eligibility_result custOk [] 2025 500 8 12).corrected_interest_rate = 8
        ∧ (get_eligibility_result custOk [] 2025 500 8 12).approval = limitGate custOk 500) := by
  have hGate := gate_false_of_nonpos_emis custOk [] (by simp [activeLoans])
  have h50 : 50 < calculate_credit_score custOk [] 2025 := by
    rw [calculate_credit_score_nil]
    norm_num
  exact ⟨hGate, h50, (eligibility_score_tiers custOk [] 2025 500 8 12 hGate).1 h50⟩

/-- C2: a positive monthly salary together with active-loan EMIs strictly above half
the salary short-circuits the eligibility check into a full rejection record, with
the corrected rate left at the requested rate and installment 0. The salary is a
stored `Decimal(10,2)` value, so the decimal halving is exact. -/
theorem emi_gate_short_circuit (c : Customer) (loans : List Loan) (year : ℤ)
    (amt rate : ℚ) (n : ℤ)
    (hsal : 0 < c.monthly_salary) (hst : StoredDec 8 c.monthly_salary)
    (hgate : c.monthly_salary / 2
      < ((activeLoans loans).map (fun l => l.monthly_repayment)).sum) :
    get_eligibility_result c loans year amt rate n
      = { customer_id := c.customer_id, approval := false, interest_rate := rate
          corrected_interest_rate := rate, tenure := n, monthly_installment := 0 } := by
  have hdiv : decDiv c.monthly_salary 2 = c.monthly_salary / 2 :=
    decDiv_two_exact _ hst.1 (lt_trans hst.2 (by norm_num))
  simp only [get_eligibility_result]
  rw [if_pos ⟨hsal, by rw [hdiv]; exact hgate⟩]

/-- Witness for C2: salary 10000 against a single active EMI of 5001. -/
theorem emi_gate_short_circuit_witness :
    0 < custC2.monthly_salary ∧ StoredDec 8 custC2.monthly_salary
      ∧ custC2.monthly_salary / 2
          < ((activeLoans [loanC2]).map (fun l => l.monthly_repayment)).sum
      ∧ get_eligibility_result custC2 [loanC2] 2025 100000 8 12
          = { customer_id := custC2.customer_id, approval := false, interest_rate := 8
              corrected_interest_rate := 8, tenure := 12, monthly_installment := 0 } := by
  have h1 : 0 < custC2.monthly_salary := by norm_num [custC2]
  have h2 : StoredDec 8 custC2.monthly_salary := by
    constructor
    · norm_num [custC2]
    · show |(10000 : ℚ)| < 10 ^ 8
      rw [abs_of_pos (by norm_num : (0 : ℚ) < 10000)]
      norm_num
  have h3 : custC2.monthly_salary / 2
      < ((activeLoans [loanC2]).map (fun l => l.monthly_repayment)).sum := by
    simp only [activeLoans, loanC2, custC2, List.filter, List.map, List.sum_cons, List.sum_nil]
    norm_num
  exact ⟨h1, h2, h3, emi_gate_short_circuit custC2 [loanC2] 2025 100000 8 12 h1 h2 h3⟩

/-- C3 (amended): for positive principal, positive rate and positive tenure with a
nonvanishing decimal denominator, `calculate_emi` is the decimal amortization value
`P*m*f/(f-1)` rounded to 2 decimal places with halves rounded to even. -/
theorem emi_formula_half_even (P a : ℚ) (n : ℤ) (_hP : 0 < P) (ha : 0 < a) (_hn : 0 < n)
    (hden : decSub (decPow (decAdd 1 (decDiv (decDiv a 12) 100)) n) 1 ≠ 0) :
    calculate_emi P a n = emiRoundedHalfEven P a n := by
  simp only [calculate_emi, emiRoundedHalfEven]
  rw [if_neg (ne_of_gt ha), if_neg hden]

/-- Witness for C3 at principal 100, rate 12, tenure 12 months. -/
theorem emi_formula_half_even_witness :
    (0 : ℚ) < 100 ∧ (0 : ℚ) < 12 ∧ (0 : ℤ) < 12
      ∧ decSub (decPow (decAdd 1 (decDiv (decDiv (12 : ℚ) 12) 100)) 12) 1 ≠ 0
      ∧ calculate_emi 100 12 12 = emiRoundedHalfEven 100 12 12 := by
  have hden : decSub (decPow (decAdd 1 (decDiv (decDiv (12 : ℚ) 12) 100)) 12) 1 ≠ 0 := by
    rw [dec_denominator_twelve]
    norm_num
  exact ⟨by norm_num, by norm_num, by norm_num, hden,
    emi_formula_half_even 100 12 12 (by norm_num) (by norm_num) (by norm_num) hden⟩

/-- C3 counterexample: at principal 2.50, rate 12, tenure 1 the exact 2-decimal
quotient is the tie 2.525; the code rounds it to even (2.52), while the claimed
half-away-from-zero rounding gives 2.53. -/
theorem emi_rounding_counterexample :
    (0 : ℚ) < 5 / 2 ∧ (0 : ℚ) < 12 ∧ (0 : ℤ) < 1
      ∧ decSub (decPow (decAdd 1 (decDiv (decDiv (12 : ℚ) 12) 100)) 1) 1 ≠ 0
      ∧ calculate_emi (5 / 2) 12 1 = 252 / 100
      ∧ emiRoundedAwayFromZero (5 / 2) 12 1 = 253 / 100
      ∧ calculate_emi (5 / 2) 12 1 ≠ emiRoundedAwayFromZero (5 / 2) 12 1 := by
  have hden : decSub (decPow (decAdd 1 (decDiv (decDiv (12 : ℚ) 12) 100)) 1) 1 ≠ 0 := by
    rw [decDiv_twelve_twelve, decDiv_one_hundred, decAdd_one_centi, decPow_ratefactor_one,
      decSub_ratefactor_one]
    norm_num
  refine ⟨by norm_num, by norm_num, by norm_num, hden, emi_tie_value, emiAway_tie_value, ?_⟩
  rw [emi_tie_value, emiAway_tie_value]
  norm_num

/-- Witness for C5: zero-limit customer, score 100, requested amount 5 is rejected
with installment 0. -/
theorem eligibility_limit_gate_witness :
    ¬(0 < custZeroLimit.monthly_salary ∧ decDiv custZeroLimit.monthly_salary 2
        < ((activeLoans ([] : List Loan)).map (fun l => l.monthly_repayment)).sum)
      ∧ 10 < calculate_credit_score custZeroLimit [] 2025
      ∧ (get_eligibility_result custZeroLimit [] 2025 5 8 12).approval = false
      ∧ (get_eligibility_result custZeroLimit [] 2025 5 8 12).monthly_installment = 0 := by
  have hGate := gate_false_of_nonpos_emis custZeroLimit [] (by simp [activeLoans])
  have h10 : 10 < calculate_credit_score custZeroLimit [] 2025 := by
    rw [calculate_credit_score_nil]
    norm_num
  have h := eligibility_limit_gate custZeroLimit [] 2025 5 8 12 hGate h10
  have happ := h.1 (Or.inr rfl) (by norm_num)
  exact ⟨hGate, h10, happ, h.2.2.2.2 happ⟩

/-- C5 counterexample: for a zero-limit customer and requested amount -1, the Step 3
gate leaves the approval standing but reports installment 0, not the EMI of the
corrected rate (which is -1.01). -/
theorem eligibility_limit_gate_counterexample :
    custZeroLimit.approved_limit = some 0
      ∧ (get_eligibility_result custZeroLimit [] 2025 (-1) 12 1).approval = true
      ∧ (get_eligibility_result custZeroLimit [] 2025 (-1) 12 1).monthly_installment = 0
      ∧ calculate_emi (-1)
          (get_eligibility_result custZeroLimit [] 2025 (-1) 12 1).corrected_interest_rate 1
          = -(101 / 100)
      ∧ (get_eligibility_result custZeroLimit [] 2025 (-1) 12 1).monthly_installment
          ≠ calculate_emi (-1)
              (get_eligibility_result custZeroLimit [] 2025 (-1) 12 1).corrected_interest_rate 1 := by
  have h0 : (get_eligibility_result custZeroLimit [] 2025 (-1) 12 1).monthly_installment = 0 := by
    rw [elig_zeroLimit_neg]
  have hc : (get_eligibility_result custZeroLimit [] 2025 (-1) 12 1).corrected_interest_rate
      = 12 := by
    rw [elig_zeroLimit_neg]
  have happ : (get_eligibility_result custZeroLimit [] 2025 (-1) 12 1).approval = true := by
    rw [elig_zeroLimit_neg]
  have hemi : calculate_emi (-1)
      (get_eligibility_result custZeroLimit [] 2025 (-1) 12 1).corrected_interest_rate 1
      = -(101 / 100) := by
    rw [hc, emi_neg_one]
  refine ⟨rfl, happ, h0, hemi, ?_⟩
  rw [h0, hemi]
  norm_num

/-- C7: an approved creation writes exactly one new active loan with zero EMIs paid,
start date today and end date `tenure` months later, adds the loan amount to the
customer's debt (exactly, for storable decimal values), and answers with the new
loan id; a rejected creation writes nothing, leaves the customer unchanged, and
answers with a null loan id and `loan_approved = false`. -/
theorem loan_creation_effects (c : Customer) (loans : List Loan) (year : ℤ)
    (today : CalDate) (nid : ℕ) (amt rate : ℚ) (n : ℤ)
    (hd : StoredDec 10 c.current_debt) (ha : StoredDec 10 amt) :
    ((get_eligibility_result c loans year amt rate n).approval = true →
        (∃ l : Loan, (create c loans year today nid amt rate n).newLoan = some l
          ∧ l.loan_status = "active" ∧ l.emis_paid_on_time = 0
          ∧ l.start_date = today ∧ l.end_date = addMonths today n
          ∧ l.loan_amount = amt)
        ∧ (create c loans year today nid amt rate n).customer.current_debt
            = c.current_debt + amt
        ∧ (create c loans year today nid amt rate n).response.loan_id = some nid
        ∧ (create c loans year today nid amt rate n).response.loan_approved = true)
      ∧ ((get_eligibility_result c loans year amt rate n).approval = false →
        (create c loans year today nid amt rate n).newLoan = none
          ∧ (create c loans year today nid amt rate n).customer = c
          ∧ (create c loans year today nid amt rate n).response.loan_id = none
          ∧ (create c loans year today nid amt rate n).response.loan_approved = false) := by
  have hsum : decAdd c.current_debt amt = c.current_debt + amt := by
    refine decAdd_exact _ _ hd.1 ha.1 ?_
    calc |c.current_debt + amt| ≤ |c.current_debt| + |amt| := abs_add _ _
      _ < 10 ^ 10 + 10 ^ 10 := add_lt_add hd.2 ha.2
      _ < (10 : ℚ) ^ (26 : ℤ) := by norm_num
  constructor
  · intro happ
    simp only [create]
    rw [if_pos happ]
    exact ⟨⟨_, rfl, rfl, rfl, rfl, rfl, rfl⟩, hsum, rfl, rfl⟩
  · intro happ
    simp only [create]
    rw [if_neg (fun h => Bool.false_ne_true (happ ▸ h))]
    exact ⟨rfl, rfl, rfl, rfl⟩

/-- Witness for C7: approved creation at a fresh customer with a large limit. -/
theorem loan_creation_effects_witness :
    StoredDec 10 custOk.current_debt ∧ StoredDec 10 (500 : ℚ)
      ∧ (get_eligibility_result custOk [] 2025 500 8 12).approval = true
      ∧ (create custOk [] 2025 ⟨2026, 1, 1⟩ 42 500 8 12).customer.current_debt
          = custOk.current_debt + 500
      ∧ (create custOk [] 2025 ⟨2026, 1, 1⟩ 42 500 8 12).response.loan_approved = true := by
  have hd : StoredDec 10 custOk.current_debt := by
    constructor
    · norm_num [custOk]
    · show |(100 : ℚ)| < 10 ^ 10
      rw [abs_of_pos (by norm_num : (0 : ℚ) < 100)]
      norm_num
  have ha5 : StoredDec 10 (500 : ℚ) := by
    constructor
    · norm_num
    · show |(500 : ℚ)| < 10 ^ 10
      rw [abs_of_pos (by norm_num : (0 : ℚ) < 500)]
      norm_num
  obtain ⟨-, hdebt, -, happr⟩ :=
    (loan_creation_effects custOk [] 2025 ⟨2026, 1, 1⟩ 42 500 8 12 hd ha5).1 elig_custOk
  exact ⟨hd, ha5, elig_custOk, hdebt, happr⟩

/-- C9 (amended): for an approved creation with nonnegative requested amount, the
installment recomputed by issuance from the corrected rate equals the eligibility
result's installment exactly. -/
theorem issuance_installment_matches (c : Customer) (loans : List Loan) (year : ℤ)
    (today : CalDate) (nid : ℕ) (amt rate : ℚ) (n : ℤ) (hamt : 0 ≤ amt)
    (happ : (get_eligibility_result c loans year amt rate n).approval = true) :
    (create c loans year today nid amt rate n).response.monthly_installment
      = (get_eligibility_result c loans year amt rate n).monthly_installment := by
  have h := elig_approved_installment c loans year amt rate n hamt happ
  simp only [create]
  rw [if_pos happ]
  exact h.symm

/-- Witness for C9: the approved creation of 500 at rate 8 over 12 months. -/
theorem issuance_installment_matches_witness :
    (0 : ℚ) ≤ 500
      ∧ (get_eligibility_result custOk [] 2025 500 8 12).approval = true
      ∧ (create custOk [] 2025 ⟨2026, 1, 1⟩ 42 500 8 12).response.monthly_installment
          = (get_eligibility_result custOk [] 2025 500 8 12).monthly_installment :=
  ⟨by norm_num, elig_custOk,
    issuance_installment_matches custOk [] 2025 ⟨2026, 1, 1⟩ 42 500 8 12 (by norm_num) elig_custOk⟩

/-- C9 counterexample: for a zero-limit customer and requested amount -1 the
creation is approved, the response installment is the recomputed EMI -1.01, but the
eligibility result reported installment 0. -/
theorem issuance_installment_matches_counterexample :
    (get_eligibility_result custZeroLimit [] 2025 (-1) 12 1).approval = true
      ∧ (create custZeroLimit [] 2025 ⟨2026, 1, 1⟩ 7 (-1) 12 1).response.monthly_installment
          = -(101 / 100)
      ∧ (get_eligibility_result custZeroLimit [] 2025 (-1) 12 1).monthly_installment = 0
      ∧ (create custZeroLimit [] 2025 ⟨2026, 1, 1⟩ 7 (-1) 12 1).response.monthly_installment
          ≠ (get_eligibility_result custZeroLimit [] 2025 (-1) 12 1).monthly_installment := by
  have happ : (get_eligibility_result custZeroLimit [] 2025 (-1) 12 1).approval = true := by
    rw [elig_zeroLimit_neg]
  have hinst : (get_eligibility_result custZeroLimit [] 2025 (-1) 12 1).monthly_installment
      = 0 := by
    rw [elig_zeroLimit_neg]
  have hcorr : (get_eligibility_result custZeroLimit [] 2025 (-1) 12 1).corrected_interest_rate
      = 12 := by
    rw [elig_zeroLimit_neg]
  have hresp : (create custZeroLimit [] 2025 ⟨2026, 1, 1⟩ 7 (-1) 12 1).response.monthly_installment
      = -(101 / 100) := by
    simp only [create]
    rw [if_pos happ]
    show calculate_emi (-1)
      (get_eligibility_result custZeroLimit [] 2025 (-1) 12 1).corrected_interest_rate 1
      = -(101 / 100)
    rw [hcorr, emi_neg_one]
  refine ⟨happ, hresp, hinst, ?_⟩
  rw [hresp, hinst]
  norm_num

/-- C10: every loan row written by `create` carries the corrected interest rate of
the eligibility result, and a monthly repayment recomputed by the EMI calculator
from that corrected rate. -/
theorem issued_loan_uses_corrected_rate (c : Customer) (loans : List Loan) (year : ℤ)
    (today : CalDate) (nid : ℕ) (amt rate : ℚ) (n : ℤ) (l : Loan)
    (hl : (create c loans year today nid amt rate n).newLoan = some l) :
    l.interest_rate
        = (get_eligibility_result c loans year amt rate n).corrected_interest_rate
      ∧ l.monthly_repayment
          = calculate_emi amt
              (get_eligibility_result c loans year amt rate n).corrected_interest_rate n := by
  cases happ : (get_eligibility_result c loans year amt rate n).approval with
  | false =>
    simp only [create] at hl
    rw [if_neg (fun h => Bool.false_ne_true (happ ▸ h))] at hl
    exact Option.noConfusion hl
  | true =>
    simp only [create] at hl
    rw [if_pos happ] at hl
    simp only [Option.some.injEq] at hl
    subst hl
    exact ⟨rfl, rfl⟩

def loanW : Loan :=
  { loan_id := 42, loan_amount := 500, tenure := 12
    interest_rate := (get_eligibility_result custOk [] 2025 500 8 12).corrected_interest_rate
    monthly_repayment :=
      calculate_emi 500 (get_eligibility_result custOk [] 2025 500 8 12).corrected_interest_rate 12
    emis_paid_on_time := 0, start_date := ⟨2026, 1, 1⟩
    end_date := addMonths ⟨2026, 1, 1⟩ 12, loan_status := "active" }

/-- Witness for C10: the loan row written for the approved creation of 500 at
requested rate 8. -/
theorem issued_loan_uses_corrected_rate_witness :
    (create custOk [] 2025 ⟨2026, 1, 1⟩ 42 500 8 12).newLoan = some loanW
      ∧ loanW.interest_rate
          = (get_eligibility_result custOk [] 2025 500 8 12).corrected_interest_rate
      ∧ loanW.monthly_repayment
          = calculate_emi 500
              (get_eligibility_result custOk [] 2025 500 8 12).corrected_interest_rate 12 := by
  have hl : (create custOk [] 2025 ⟨2026, 1, 1⟩ 42 500 8 12).newLoan = some loanW := by
    simp only [create]
    rw [if_pos elig_custOk]
    rfl
  obtain ⟨h1, h2⟩ :=
    issued_loan_uses_corrected_rate custOk [] 2025 ⟨2026, 1, 1⟩ 42 500 8 12 loanW hl
  exact ⟨hl, h1, h2⟩
/-! Monotonicity of the decimal roundings: `rndHE`, `ctxRound` and `quantize2` are
monotone maps, so every stage of the EMI pipeline preserves order in the principal. -/

theorem rndHE_le_half (q : ℚ) : ((rndHE q : ℤ) : ℚ) ≤ q + 1 / 2 := by
  have hediv : Int.ediv q.num q.den = ⌊q⌋ := ediv_num_den q
  have hdq : (0 : ℚ) < (q.den : ℚ) := by exact_mod_cast q.den_pos
  have hfl : (⌊q⌋ : ℚ) ≤ q := Int.floor_le q
  simp only [rndHE, hediv]
  split_ifs with h1 h2 h3
  · linarith
  · have key : ((q.den : ℤ) : ℚ) ≤ ((2 * (q.num - ⌊q⌋ * q.den) : ℤ) : ℚ) := by
      exact_mod_cast le_of_lt h2
    rw [sub_floor_mul_den] at key
    push_cast at key ⊢
    nlinarith
  · linarith
  · have hge : (q.den : ℤ) ≤ 2 * (q.num - ⌊q⌋ * q.den) := by omega
    have key : ((q.den : ℤ) : ℚ) ≤ ((2 * (q.num - ⌊q⌋ * q.den) : ℤ) : ℚ) := by
      exact_mod_cast hge
    rw [sub_floor_mul_den] at key
    push_cast at key ⊢
    nlinarith

theorem rndHE_ge_half (q : ℚ) : q - 1 / 2 ≤ ((rndHE q : ℤ) : ℚ) := by
  have hediv : Int.ediv q.num q.den = ⌊q⌋ := ediv_num_den q
  have hdq : (0 : ℚ) < (q.den : ℚ) := by exact_mod_cast q.den_pos
  have hfu : q < (⌊q⌋ : ℚ) + 1 := Int.lt_floor_add_one q
  simp only [rndHE, hediv]
  split_ifs with h1 h2 h3
  · have key : ((2 * (q.num - ⌊q⌋ * q.den) : ℤ) : ℚ) < ((q.den : ℤ) : ℚ) := by
      exact_mod_cast h1
    rw [sub_floor_mul_den] at key
    push_cast at key ⊢
    nlinarith
  · push_cast
    linarith
  · have hle : 2 * (q.num - ⌊q⌋ * q.den) ≤ (q.den : ℤ) := by omega
    have key : ((2 * (q.num - ⌊q⌋ * q.den) : ℤ) : ℚ) ≤ ((q.den : ℤ) : ℚ) := by
      exact_mod_cast hle
    rw [sub_floor_mul_den] at key
    push_cast at key ⊢
    nlinarith
  · push_cast
    linarith

theorem rndHE_mono (x y : ℚ) (h : x ≤ y) : rndHE x ≤ rndHE y := by
  rcases eq_or_lt_of_le h with rfl | hlt
  · exact le_refl _
  · have h1 := rndHE_le_half x
    have h2 := rndHE_ge_half y
    have h3 : ((rndHE x : ℤ) : ℚ) < ((rndHE y : ℤ) : ℚ) + 1 := by linarith
    have h4 : rndHE x < rndHE y + 1 := by exact_mod_cast h3
    omega

theorem rndHE_neg (q : ℚ) : rndHE (-q) = -rndHE q := by
  have h1 : ((⌊q⌋ : ℤ) : ℚ) ≤ q := Int.floor_le q
  have h2 : q < ((⌊q⌋ : ℤ) : ℚ) + 1 := Int.lt_floor_add_one q
  rcases lt_trichotomy q (((⌊q⌋ : ℤ) : ℚ) + 1 / 2) with hlt | heq | hgt
  · rw [rndHE_of_lt q ⌊q⌋ h1 hlt]
    rcases eq_or_lt_of_le h1 with heq1 | hlt1
    · rw [show -q = (((-⌊q⌋) : ℤ) : ℚ) from by push_cast; linarith]
      rw [rndHE_intCast]
    · have h5 := rndHE_of_gt (-q) (-⌊q⌋ - 1) (by push_cast; linarith) (by push_cast; linarith)
      rw [h5]
      omega
  · rw [rndHE_tie q ⌊q⌋ heq]
    rw [rndHE_tie (-q) (-⌊q⌋ - 1) (by push_cast; linarith)]
    split_ifs <;> omega
  · rw [rndHE_of_gt q ⌊q⌋ hgt (le_of_lt h2)]
    have h5 := rndHE_of_lt (-q) (-(⌊q⌋ + 1)) (by push_cast; linarith) (by push_cast; linarith)
    rw [h5]

theorem decAdjExp_neg (q : ℚ) (hq : q ≠ 0) : decAdjExp (-q) = decAdjExp q :=
  decAdjExp_eq_of (-q) (decAdjExp q) (neg_ne_zero.mpr hq)
    (by rw [abs_neg]; exact decAdjExp_le q hq)
    (by rw [abs_neg]; exact decAdjExp_lt q hq)

theorem ctxRound_neg (q : ℚ) : ctxRound (-q) = -ctxRound q := by
  rcases eq_or_ne q 0 with rfl | h0
  · rw [neg_zero, ctxRound_zero, neg_zero]
  · rw [ctxRound, ctxRound, if_neg h0, if_neg (neg_ne_zero.mpr h0)]
    show ((rndHE ((-q) * (10 : ℚ) ^ (27 - decAdjExp (-q))) : ℤ) : ℚ)
        / (10 : ℚ) ^ (27 - decAdjExp (-q))
      = -(((rndHE (q * (10 : ℚ) ^ (27 - decAdjExp q)) : ℤ) : ℚ) / (10 : ℚ) ^ (27 - decAdjExp q))
    rw [decAdjExp_neg q h0,
      show (-q) * (10 : ℚ) ^ (27 - decAdjExp q) = -(q * (10 : ℚ) ^ (27 - decAdjExp q)) from by
        ring,
      rndHE_neg]
    push_cast
    ring

theorem ctxRound_nonpos (q : ℚ) (h : q ≤ 0) : ctxRound q ≤ 0 := by
  rw [ctxRound]
  split_ifs with h0
  · exact le_refl 0
  · have hp : (0 : ℚ) < (10 : ℚ) ^ (27 - decAdjExp q) := by positivity
    have hneg : q < 0 := lt_of_le_of_ne h h0
    have harg : q * (10 : ℚ) ^ (27 - decAdjExp q) ≤ 0 :=
      le_of_lt (mul_neg_of_neg_of_pos hneg hp)
    have hle := rndHE_le_half (q * (10 : ℚ) ^ (27 - decAdjExp q))
    have hr : ((rndHE (q * (10 : ℚ) ^ (27 - decAdjExp q)) : ℤ) : ℚ) < 1 := by linarith
    have hr2 : rndHE (q * (10 : ℚ) ^ (27 - decAdjExp q)) ≤ 0 := by
      have h6 : rndHE (q * (10 : ℚ) ^ (27 - decAdjExp q)) < 1 := by exact_mod_cast hr
      omega
    have hr3 : ((rndHE (q * (10 : ℚ) ^ (27 - decAdjExp q)) : ℤ) : ℚ) ≤ 0 := by exact_mod_cast hr2
    have hdiv := (div_le_div_iff_of_pos_right hp).mpr hr3
    rw [zero_div] at hdiv
    exact hdiv

theorem ctxRound_le_adj (x : ℚ) (hx : 0 < x) : ctxRound x ≤ (10 : ℚ) ^ (decAdjExp x + 1) := by
  have hx0 : x ≠ 0 := ne_of_gt hx
  have h2 : x < (10 : ℚ) ^ (decAdjExp x + 1) := by
    have h3 := decAdjExp_lt x hx0
    rwa [abs_of_pos hx] at h3
  rw [ctxRound, if_neg hx0]
  show ((rndHE (x * (10 : ℚ) ^ (27 - decAdjExp x)) : ℤ) : ℚ) / (10 : ℚ) ^ (27 - decAdjExp x)
    ≤ (10 : ℚ) ^ (decAdjExp x + 1)
  have hp : (0 : ℚ) < (10 : ℚ) ^ (27 - decAdjExp x) := by positivity
  have hsplit : ((10 ^ 28 : ℤ) : ℚ)
      = (10 : ℚ) ^ (decAdjExp x + 1) * (10 : ℚ) ^ (27 - decAdjExp x) := by
    rw [← zpow_add₀ (by norm_num : (10 : ℚ) ≠ 0)]
    rw [show decAdjExp x + 1 + (27 - decAdjExp x) = (28 : ℤ) by ring]
    push_cast
    norm_num
  have hv : x * (10 : ℚ) ^ (27 - decAdjExp x) < ((10 ^ 28 : ℤ) : ℚ) := by
    rw [hsplit]
    exact mul_lt_mul_of_pos_right h2 hp
  have hZ : rndHE (x * (10 : ℚ) ^ (27 - decAdjExp x)) ≤ 10 ^ 28 := by
    have hle := rndHE_le_half (x * (10 : ℚ) ^ (27 - decAdjExp x))
    have hlt : ((rndHE (x * (10 : ℚ) ^ (27 - decAdjExp x)) : ℤ) : ℚ)
        < ((10 ^ 28 : ℤ) : ℚ) + 1 := by linarith
    have h6 : rndHE (x * (10 : ℚ) ^ (27 - decAdjExp x)) < 10 ^ 28 + 1 := by exact_mod_cast hlt
    omega
  have hcast : ((rndHE (x * (10 : ℚ) ^ (27 - decAdjExp x)) : ℤ) : ℚ) ≤ ((10 ^ 28 : ℤ) : ℚ) := by
    exact_mod_cast hZ
  have hdiv := (div_le_div_iff_of_pos_right hp).mpr hcast
  refine le_trans hdiv (le_of_eq ?_)
  rw [hsplit, mul_div_cancel_right₀ _ (ne_of_gt hp)]

theorem ctxRound_ge_adj (y : ℚ) (hy : 0 < y) : (10 : ℚ) ^ decAdjExp y ≤ ctxRound y := by
  have hy0 : y ≠ 0 := ne_of_gt hy
  have h1 : (10 : ℚ) ^ decAdjExp y ≤ y := by
    have h3 := decAdjExp_le y hy0
    rwa [abs_of_pos hy] at h3
  rw [ctxRound, if_neg hy0]
  show (10 : ℚ) ^ decAdjExp y
    ≤ ((rndHE (y * (10 : ℚ) ^ (27 - decAdjExp y)) : ℤ) : ℚ) / (10 : ℚ) ^ (27 - decAdjExp y)
  have hp : (0 : ℚ) < (10 : ℚ) ^ (27 - decAdjExp y) := by positivity
  have hsplit : ((10 ^ 27 : ℤ) : ℚ)
      = (10 : ℚ) ^ decAdjExp y * (10 : ℚ) ^ (27 - decAdjExp y) := by
    rw [← zpow_add₀ (by norm_num : (10 : ℚ) ≠ 0)]
    rw [show decAdjExp y + (27 - decAdjExp y) = (27 : ℤ) by ring]
    push_cast
    norm_num
  have hv : ((10 ^ 27 : ℤ) : ℚ) ≤ y * (10 : ℚ) ^ (27 - decAdjExp y) := by
    rw [hsplit]
    exact mul_le_mul_of_nonneg_right h1 (le_of_lt hp)
  have hZ : (10 ^ 27 : ℤ) ≤ rndHE (y * (10 : ℚ) ^ (27 - decAdjExp y)) := by
    have hge := rndHE_ge_half (y * (10 : ℚ) ^ (27 - decAdjExp y))
    have hlt : ((10 ^ 27 : ℤ) : ℚ) - 1
        < ((rndHE (y * (10 : ℚ) ^ (27 - decAdjExp y)) : ℤ) : ℚ) := by linarith
    have h6 : (10 ^ 27 : ℤ) - 1 < rndHE (y * (10 : ℚ) ^ (27 - decAdjExp y)) := by
      exact_mod_cast hlt
    omega
  have hcast : ((10 ^ 27 : ℤ) : ℚ) ≤ ((rndHE (y * (10 : ℚ) ^ (27 - decAdjExp y)) : ℤ) : ℚ) := by
    exact_mod_cast hZ
  have hdiv := (div_le_div_iff_of_pos_right hp).mpr hcast
  refine le_trans (le_of_eq ?_) hdiv
  rw [hsplit, mul_div_cancel_right₀ _ (ne_of_gt hp)]

theorem ctxRound_mono_pos (x y : ℚ) (hx : 0 < x) (hxy : x ≤ y) :
    ctxRound x ≤ ctxRound y := by
  have hy : 0 < y := lt_of_lt_of_le hx hxy
  have hx0 : x ≠ 0 := ne_of_gt hx
  have hy0 : y ≠ 0 := ne_of_gt hy
  have hef : decAdjExp x ≤ decAdjExp y := by
    by_contra hc
    push_neg at hc
    have h1 : (10 : ℚ) ^ decAdjExp x ≤ |x| := decAdjExp_le x hx0
    have h2 : |y| < (10 : ℚ) ^ (decAdjExp y + 1) := decAdjExp_lt y hy0
    have h3 : (10 : ℚ) ^ (decAdjExp y + 1) ≤ (10 : ℚ) ^ decAdjExp x :=
      zpow_le_zpow_right₀ (by norm_num) (by omega)
    rw [abs_of_pos hx] at h1
    rw [abs_of_pos hy] at h2
    linarith
  rcases eq_or_lt_of_le hef with heq | hlt
  · rw [ctxRound, ctxRound, if_neg hx0, if_neg hy0]
    show ((rndHE (x * (10 : ℚ) ^ (27 - decAdjExp x)) : ℤ) : ℚ) / (10 : ℚ) ^ (27 - decAdjExp x)
      ≤ ((rndHE (y * (10 : ℚ) ^ (27 - decAdjExp y)) : ℤ) : ℚ) / (10 : ℚ) ^ (27 - decAdjExp y)
    rw [← heq]
    have hp : (0 : ℚ) < (10 : ℚ) ^ (27 - decAdjExp x) := by positivity
    have hmono : rndHE (x * (10 : ℚ) ^ (27 - decAdjExp x))
        ≤ rndHE (y * (10 : ℚ) ^ (27 - decAdjExp x)) :=
      rndHE_mono _ _ (mul_le_mul_of_nonneg_right hxy (le_of_lt hp))
    exact (div_le_div_iff_of_pos_right hp).mpr (by exact_mod_cast hmono)
  · calc ctxRound x ≤ (10 : ℚ) ^ (decAdjExp x + 1) := ctxRound_le_adj x hx
      _ ≤ (10 : ℚ) ^ decAdjExp y := zpow_le_zpow_right₀ (by norm_num) (by omega)
      _ ≤ ctxRound y := ctxRound_ge_adj y hy

theorem ctxRound_mono (x y : ℚ) (h : x ≤ y) : ctxRound x ≤ ctxRound y := by
  rcases lt_or_le 0 x with hx | hx
  · exact ctxRound_mono_pos x y hx h
  · rcases lt_or_le y 0 with hy | hy
    · have h6 := ctxRound_mono_pos (-y) (-x) (by linarith) (by linarith)
      rw [ctxRound_neg, ctxRound_neg] at h6
      linarith
    · exact le_trans (ctxRound_nonpos x hx) (ctxRound_nonneg y hy)

theorem quantize2_mono (x y : ℚ) (h : x ≤ y) : quantize2 x ≤ quantize2 y := by
  rw [quantize2, quantize2]
  have hm : rndHE (x * 100) ≤ rndHE (y * 100) :=
    rndHE_mono _ _ (mul_le_mul_of_nonneg_right h (by norm_num))
  exact (div_le_div_iff_of_pos_right (by norm_num : (0 : ℚ) < 100)).mpr (by exact_mod_cast hm)

/-- Code-level principal monotonicity of `calculate_emi`: every stage of the decimal
pipeline is a monotone rounding of a function monotone in the principal. -/
theorem calculate_emi_mono_principal (P Q a : ℚ) (n : ℤ) (hPQ : P ≤ Q) (ha : 0 ≤ a)
    (hn : 0 < n) : calculate_emi P a n ≤ calculate_emi Q a n := by
  have hnq : (0 : ℚ) < (n : ℚ) := by exact_mod_cast hn
  by_cases h0 : a = 0
  · rw [calculate_emi, calculate_emi, if_pos h0, if_pos h0]
    show ctxRound (P / (n : ℚ)) ≤ ctxRound (Q / (n : ℚ))
    exact ctxRound_mono _ _ ((div_le_div_iff_of_pos_right hnq).mpr hPQ)
  · rw [calculate_emi, calculate_emi, if_neg h0, if_neg h0]
    show (if decSub (decPow (decAdd 1 (decDiv (decDiv a 12) 100)) n) 1 = 0 then
            decDiv P (n : ℚ)
          else quantize2 (decDiv
            (decMul (decMul P (decDiv (decDiv a 12) 100))
              (decPow (decAdd 1 (decDiv (decDiv a 12) 100)) n))
            (decSub (decPow (decAdd 1 (decDiv (decDiv a 12) 100)) n) 1)))
        ≤ (if decSub (decPow (decAdd 1 (decDiv (decDiv a 12) 100)) n) 1 = 0 then
            decDiv Q (n : ℚ)
          else quantize2 (decDiv
            (decMul (decMul Q (decDiv (decDiv a 12) 100))
              (decPow (decAdd 1 (decDiv (decDiv a 12) 100)) n))
            (decSub (decPow (decAdd 1 (decDiv (decDiv a 12) 100)) n) 1)))
    set m := decDiv (decDiv a 12) 100 with hm
    set f := decPow (decAdd 1 m) n with hf
    have hma : 0 ≤ decDiv a 12 := by
      rw [decDiv]
      exact ctxRound_nonneg _ (div_nonneg ha (by norm_num))
    have hm0 : 0 ≤ m := by
      rw [hm, decDiv]
      exact ctxRound_nonneg _ (div_nonneg hma (by norm_num))
    have hone : ctxRound (1 : ℚ) = 1 :=
      ctxRound_id_pos 1 0 (by norm_num) (by norm_num) (by norm_num)
    have hb1 : (1 : ℚ) ≤ decAdd 1 m := by
      rw [decAdd]
      calc (1 : ℚ) = ctxRound 1 := hone.symm
        _ ≤ ctxRound (1 + m) := ctxRound_mono _ _ (by linarith)
    have hf1 : (1 : ℚ) ≤ f := by
      have hz := zpow_le_zpow_right₀ hb1 (show (0 : ℤ) ≤ n from le_of_lt hn)
      rw [zpow_zero] at hz
      rw [hf, decPow]
      calc (1 : ℚ) = ctxRound 1 := hone.symm
        _ ≤ ctxRound ((decAdd 1 m) ^ n) := ctxRound_mono _ _ hz
    have hden0 : 0 ≤ decSub f 1 := by
      rw [decSub]
      exact ctxRound_nonneg _ (by linarith)
    by_cases hd : decSub f 1 = 0
    · rw [if_pos hd, if_pos hd]
      show ctxRound (P / (n : ℚ)) ≤ ctxRound (Q / (n : ℚ))
      exact ctxRound_mono _ _ ((div_le_div_iff_of_pos_right hnq).mpr hPQ)
    · rw [if_neg hd, if_neg hd]
      have hdpos : 0 < decSub f 1 := lt_of_le_of_ne hden0 (Ne.symm hd)
      have h1 : decMul P m ≤ decMul Q m := by
        show ctxRound (P * m) ≤ ctxRound (Q * m)
        exact ctxRound_mono _ _ (mul_le_mul_of_nonneg_right hPQ hm0)
      have hnum : decMul (decMul P m) f ≤ decMul (decMul Q m) f := by
        show ctxRound (decMul P m * f) ≤ ctxRound (decMul Q m * f)
        exact ctxRound_mono _ _ (mul_le_mul_of_nonneg_right h1 (by linarith))
      have hq : decDiv (decMul (decMul P m) f) (decSub f 1)
          ≤ decDiv (decMul (decMul Q m) f) (decSub f 1) := by
        show ctxRound (decMul (decMul P m) f / decSub f 1)
          ≤ ctxRound (decMul (decMul Q m) f / decSub f 1)
        exact ctxRound_mono _ _ ((div_le_div_iff_of_pos_right hdpos).mpr hnum)
      exact quantize2_mono _ _ hq

theorem ctxRound_eval_neg_up (q : ℚ) (e n : ℤ) (h0 : q < 0)
    (hlow : (10 : ℚ) ^ e ≤ -q) (hhigh : -q < (10 : ℚ) ^ (e + 1))
    (hn1 : (n : ℚ) + 1 / 2 < q * (10 : ℚ) ^ (27 - e))
    (hn2 : q * (10 : ℚ) ^ (27 - e) ≤ (n : ℚ) + 1) :
    ctxRound q = ((n + 1 : ℤ) : ℚ) / (10 : ℚ) ^ (27 - e) :=
  ctxRound_eval q e (n + 1) (ne_of_lt h0) (by rwa [abs_of_neg h0]) (by rwa [abs_of_neg h0])
    (rndHE_of_gt _ n hn1 hn2)

/-- `calculate_emi(-1, 12, 2) = -0.51`: at tenure 2 the negative EMI is less than
half as deep as at tenure 1, so the EMI rises with the tenure at negative principal. -/
theorem emi_neg_two : calculate_emi (-1) 12 2 = -(51 / 100) := by
  rw [calculate_emi, if_neg (by norm_num : ¬(12 : ℚ) = 0)]
  simp only [decDiv_twelve_twelve, decDiv_one_hundred, decAdd_one_centi]
  have hp : decPow ((101 : ℚ) / 100) 2 = 10201 / 10000 := by
    rw [decPow, show (((101 : ℚ) / 100) ^ (2 : ℤ)) = 10201 / 10000 by norm_num]
    exact ctxRound_id_pos _ 4 (by norm_num) (by norm_num) (by norm_num)
  have h1 : decMul (-1 : ℚ) (1 / 100) = -(1 / 100) := by
    rw [decMul, show ((-1 : ℚ) * (1 / 100)) = -(1 / 100) by norm_num]
    exact ctxRound_id_neg (-(1 / 100)) 2 (by norm_num) (by norm_num) (by norm_num)
  have h2 : decMul (-(1 / 100) : ℚ) (10201 / 10000) = -(10201 / 1000000) := by
    rw [decMul, show ((-(1 / 100) : ℚ) * (10201 / 10000)) = -(10201 / 1000000) by norm_num]
    exact ctxRound_id_neg _ 6 (by norm_num) (by norm_num) (by norm_num)
  have h3 : decSub ((10201 : ℚ) / 10000) 1 = 201 / 10000 := by
    rw [decSub, show (((10201 : ℚ) / 10000) - 1) = 201 / 10000 by norm_num]
    exact ctxRound_id_pos _ 4 (by norm_num) (by norm_num) (by norm_num)
  have h4 : decDiv (-(10201 / 1000000) : ℚ) (201 / 10000)
      = -(5075124378109452736318407960 : ℚ) / 10 ^ 28 := by
    rw [decDiv]
    calc ctxRound ((-(10201 / 1000000) : ℚ) / (201 / 10000))
        = ((-5075124378109452736318407961 + 1 : ℤ) : ℚ) / (10 : ℚ) ^ ((27 : ℤ) - (-1)) :=
          ctxRound_eval_neg_up _ (-1) (-5075124378109452736318407961) (by norm_num)
            (by norm_num) (by norm_num) (by norm_num) (by norm_num)
      _ = -(5075124378109452736318407960 : ℚ) / 10 ^ 28 := by norm_num
  rw [hp, h1, h2, h3]
  rw [if_neg (by norm_num : ¬(201 : ℚ) / 10000 = 0)]
  rw [h4]
  rw [quantize2, rndHE_of_lt _ (-51) (by norm_num) (by norm_num)]
  norm_num

set_option maxHeartbeats 1600000 in
/-- C8 (amended): `calculate_emi` itself is monotonically non-decreasing in the
principal (fixed nonnegative rate and positive tenure) because every stage of the
decimal pipeline is a monotone rounding; the exact amortization value underlying it
is non-decreasing in the rate (for nonnegative principal) and non-increasing in the
tenure (for nonnegative principal and positive rate). The rounded `calculate_emi`
violates rate monotonicity, and tenure monotonicity at negative principal. -/
theorem emi_monotone :
    (∀ (P Q a : ℚ) (n : ℤ), P ≤ Q → 0 ≤ a → 0 < n →
        calculate_emi P a n ≤ calculate_emi Q a n)
      ∧ (∀ (P a b : ℚ) (n : ℕ), 0 ≤ P → 0 ≤ a → a ≤ b → 0 < n →
        emiExact P a n ≤ emiExact P b n)
      ∧ (∀ (P a : ℚ) (m k : ℕ), 0 ≤ P → 0 < a → 0 < m → m ≤ k →
        emiExact P a k ≤ emiExact P a m) := by
  refine ⟨?_, ?_, ?_⟩
  · intro P Q a n hPQ ha hn
    exact calculate_emi_mono_principal P Q a n hPQ ha hn
  · intro P a b n hP ha hab hn
    rw [emiExact_eq P a n ha hn, emiExact_eq P b n (le_trans ha hab) hn]
    have h1 := annuityFactor_pos a n ha hn
    have h2 := annuityFactor_pos b n (le_trans ha hab) hn
    have h3 := annuityFactor_anti_rate a b n ha hab
    rw [div_le_div_iff₀ h1 h2]
    exact mul_le_mul_of_nonneg_left h3 hP
  · intro P a m k hP ha hm hk
    rw [emiExact_eq P a m (le_of_lt ha) hm,
      emiExact_eq P a k (le_of_lt ha) (lt_of_lt_of_le hm hk)]
    have h1 := annuityFactor_pos a m (le_of_lt ha) hm
    have h2 := annuityFactor_pos a k (le_of_lt ha) (lt_of_lt_of_le hm hk)
    have h3 := annuityFactor_mono_tenure a m k (le_of_lt ha) hk
    rw [div_le_div_iff₀ h2 h1]
    exact mul_le_mul_of_nonneg_left h3 hP

/-- Witness for C8: code-level principal monotonicity from 1 to 2 at rate 12 over 12
months, and exact-value rate monotonicity from 0 to 12 percent. -/
theorem emi_monotone_witness :
    (1 : ℚ) ≤ 2 ∧ (0 : ℚ) ≤ 12 ∧ (0 : ℤ) < 12
      ∧ calculate_emi 1 12 12 ≤ calculate_emi 2 12 12
      ∧ emiExact 1 0 12 ≤ emiExact 1 12 12 := by
  refine ⟨by norm_num, by norm_num, by norm_num, ?_, ?_⟩
  · exact emi_monotone.1 1 2 12 12 (by norm_num) (by norm_num) (by norm_num)
  · exact emi_monotone.2.1 1 0 12 12 (by norm_num) (le_refl 0) (by norm_num) (by norm_num)

/-- C8 counterexample: `calculate_emi` is not monotone in the rate — at principal 1
and tenure 3 the zero-rate branch returns the unquantized 28-digit quotient
0.3333333333333333333333333333, strictly above the quantized 0.33 returned at rate
0.01 — and not non-increasing in the tenure at negative principal: at principal -1
and rate 12 the EMI rises from -1.01 at tenure 1 to -0.51 at tenure 2. -/
theorem emi_monotonicity_counterexample :
    (0 : ℚ) ≤ 0 ∧ (0 : ℚ) ≤ 1 / 100
      ∧ calculate_emi 1 0 3 = 3333333333333333333333333333 / 10 ^ 28
      ∧ calculate_emi 1 (1 / 100) 3 = 33 / 100
      ∧ ¬(calculate_emi 1 0 3 ≤ calculate_emi 1 (1 / 100) 3)
      ∧ calculate_emi (-1) 12 1 = -(101 / 100)
      ∧ calculate_emi (-1) 12 2 = -(51 / 100)
      ∧ ¬(calculate_emi (-1) 12 2 ≤ calculate_emi (-1) 12 1) := by
  refine ⟨le_refl 0, by norm_num, emi_zero_rate_value, emi_smallrate_value, ?_,
    emi_neg_one, emi_neg_two, ?_⟩
  · rw [emi_zero_rate_value, emi_smallrate_value]
    norm_num
  · rw [emi_neg_one, emi_neg_two]
    norm_num
